import Mathlib

/-!
Shallow embedding of the repeat-detection elimination engine of
`api/batch_processing/postprocessing/find_repeat_detections.py`.

Detection confidences and box coordinates are embedded as rationals; the
pandas data frame of detection records becomes a list of `DetectionRow`
values, python dicts (which preserve insertion order) become association
lists, and fallible python code (assertions, KeyError/IndexError/ValueError)
becomes `Except String`.
-/

/-- One entry of a row's `detections` array: category id, confidence, and a
bounding box `[x_min, y_min, width, height]` in relative coordinates. -/
structure Detection where
  category : String
  conf : ℚ
  bbox : List ℚ
deriving DecidableEq

/-- One row of the detection table: file path, cached maximum confidence, and
the ordered list of detections on that image. -/
structure DetectionRow where
  file : String
  max_detection_conf : ℚ
  detections : List Detection
deriving DecidableEq

/-- `IndexedDetection`: a single detection event on a single image, recording
its position `iDetection` in the image's detection list. -/
structure IndexedDetection where
  iDetection : Nat
  filename : String
  bbox : List ℚ
  confidence : ℚ
  category : String
deriving DecidableEq

/-- `DetectionLocation`: a unique-ish detection location within one directory,
with its member instances, representative box, owning directory and (after
rendering) a sample image reference. -/
structure DetectionLocation where
  instances : List IndexedDetection
  bbox : List ℚ
  relativeDir : String
  sampleImageRelativeFileName : String
deriving DecidableEq

/-- The configuration fields of `RepeatDetectionOptions` that the core engine
reads, with the source's default values. -/
structure RepeatDetectionOptions where
  confidenceMin : ℚ := 849 / 1000
  confidenceMax : ℚ := 1
  iouThreshold : ℚ := 9 / 10
  occurrenceThreshold : Int := 15
  maxSuspiciousDetectionSize : ℚ := 1 / 5
  excludeClasses : List Int := []
  debugMaxDir : Int := -1
  nDirLevelsFromLeaf : Nat := 0

/-- Modelled from the spec: `ct_utils.get_iou` is imported from `ct_utils.py`,
which is not among the sources here.  The spec defines IoU as the standard
axis-aligned overlap over union for boxes given as (x_min, y_min, width,
height), with union area = area(A) + area(B) - intersection(A,B), symmetric,
and 0 for disjoint boxes. -/
def get_iou (a c : List ℚ) : ℚ :=
  let ax1 := a.getD 0 0
  let ay1 := a.getD 1 0
  let ax2 := ax1 + a.getD 2 0
  let ay2 := ay1 + a.getD 3 0
  let cx1 := c.getD 0 0
  let cy1 := c.getD 1 0
  let cx2 := cx1 + c.getD 2 0
  let cy2 := cy1 + c.getD 3 0
  let interW := max 0 (min ax2 cx2 - max ax1 cx1)
  let interH := max 0 (min ay2 cy2 - max ay1 cy1)
  let interArea := interW * interH
  let unionArea := (ax2 - ax1) * (ay2 - ay1) + (cx2 - cx1) * (cy2 - cy1) - interArea
  if unionArea = 0 then 0 else interArea / unionArea

/-- Python list slicing `l[0:stop]` for a possibly negative `stop`, as used in
`list(rowsByDirectory.keys())[0:options.debugMaxDir]`. -/
def pySliceTo {α : Type} (l : List α) (stop : Int) : List α :=
  if stop < 0 then l.take (((l.length : Int) + stop).toNat) else l.take stop.toNat

/-- Helper for `os_path_dirname`: remove trailing slash characters. -/
def stripTrailingSlashes (cs : List Char) : List Char :=
  (cs.reverse.dropWhile (fun c => c == '/')).reverse

/-- `os.path.dirname` on posix paths: everything up to the last separator,
with trailing separators stripped unless the head is all separators. -/
def os_path_dirname (p : String) : String :=
  let cs := p.toList
  let j := cs.reverse.findIdx (fun c => c == '/')
  if j = cs.length then ""
  else
    let head := cs.take (cs.length - j)
    if head.all (fun c => c == '/') then String.mk head
    else String.mk (stripTrailingSlashes head)

/-- The directory key of a file path: `os.path.dirname`, then walked up
`nDirLevelsFromLeaf` further levels (the while loop in the partitioner). -/
def directoryKey (nDirLevelsFromLeaf : Nat) (relativePath : String) : String :=
  os_path_dirname^[nDirLevelsFromLeaf] (os_path_dirname relativePath)

/-- Lookup in an association list (python dict access, insertion order kept). -/
def assocLookup {α : Type} : List (String × α) → String → Option α
  | [], _ => none
  | p :: rest, k => if p.1 = k then some p.2 else assocLookup rest k

/-- Append `v` to the list stored under `k`, creating the key at the end when
absent (`rowsByDirectory[dirName].append(row)` on a python dict of lists). -/
def assocAppend {α : Type} : List (String × List α) → String → α → List (String × List α)
  | [], k, v => [(k, [v])]
  | p :: rest, k, v =>
    if p.1 = k then (p.1, p.2 ++ [v]) :: rest else p :: assocAppend rest k v

/-- Fallible left fold: a python for-loop whose body may raise. -/
def foldE {σ α : Type} (f : σ → α → Except String σ) : σ → List α → Except String σ
  | s, [] => .ok s
  | s, a :: rest =>
    match f s a with
    | .error e => .error e
    | .ok s' => foldE f s' rest

/-- Fallible map, keeping results in input order. -/
def mapE {α β : Type} (f : α → Except String β) : List α → Except String (List β)
  | [] => .ok []
  | a :: rest =>
    match f a with
    | .error e => .error e
    | .ok b =>
      match mapE f rest with
      | .error e => .error e
      | .ok bs => .ok (b :: bs)

/-- Enumerate a list starting from index `i` (python `enumerate`). -/
def enumFromNat {α : Type} : Nat → List α → List (Nat × α)
  | _, [] => []
  | i, a :: rest => (i, a) :: enumFromNat (i + 1) rest

/-- Replace the element at index `n` (in-place python mutation, modelled
functionally); out-of-range indices leave the list unchanged. -/
def listModify {α : Type} : List α → Nat → (α → α) → List α
  | [], _, _ => []
  | a :: rest, 0, f => f a :: rest
  | a :: rest, n + 1, f => a :: listModify rest n f

/-- `itertools.compress`: keep the elements whose flag is true. -/
def pyCompress {α : Type} (l : List α) (flags : List Bool) : List α :=
  (l.zip flags).filterMap (fun p => if p.2 then some p.1 else none)

/-- The confidence stored at row `i`, detection `j` of a table. -/
def confAt (table : List DetectionRow) (i j : Nat) : Option ℚ :=
  table[i]?.bind (fun r => r.detections[j]?.map (fun d => d.conf))

/-! ### Directory partitioner (`find_repeat_detections`, separation loop) -/

/-- One step of the separation loop: compute the directory key of `row`
(asserting it nonempty), append the row to its directory bucket, and record
`file -> iRow` (asserting the path was not seen before). -/
def separateAux (n : Nat) :
    List DetectionRow → Nat → List (String × List DetectionRow) → List (String × Nat) →
    Except String (List (String × List DetectionRow) × List (String × Nat))
  | [], _, rbd, f2r => .ok (rbd, f2r)
  | row :: rest, iRow, rbd, f2r =>
    let dirName := directoryKey n row.file
    if dirName = "" then .error "assertion failed: len(dirName) > 0"
    else
      let rbd' := assocAppend rbd dirName row
      if (assocLookup f2r row.file).isSome then
        .error "assertion failed: relativePath not in filenameToRow"
      else
        separateAux n rest (iRow + 1) rbd' (f2r ++ [(row.file, iRow)])

/-- Separate the detection table into per-directory groups and build the
filename-to-row index. -/
def separateByDirectory (n : Nat) (rows : List DetectionRow) :
    Except String (List (String × List DetectionRow) × List (String × Nat)) :=
  separateAux n rows 0 [] []

/-! ### Candidate clustering (`find_matches_in_directory`) -/

/-- One comparison of the surviving detection against an existing candidate:
on IoU at or above the threshold the instance is appended to that candidate
and the found flag set; the flag, once set, stays set. -/
def matchStep (inst : IndexedDetection) (iouThreshold : ℚ) (bbox : List ℚ)
    (st : List DetectionLocation × Bool) (cand : DetectionLocation) :
    List DetectionLocation × Bool :=
  if iouThreshold ≤ get_iou bbox cand.bbox then
    (st.1 ++ [{ cand with instances := cand.instances ++ [inst] }], true)
  else (st.1 ++ [cand], st.2)

/-- Match a surviving detection against every existing candidate, appending it
to each candidate whose IoU clears the threshold, and founding a new candidate
exactly when none matched. -/
def matchDetection (opts : RepeatDetectionOptions) (dirName : String) (det : Detection)
    (inst : IndexedDetection) (cands : List DetectionLocation) : List DetectionLocation :=
  let r := cands.foldl (matchStep inst opts.iouThreshold det.bbox) (([] : List DetectionLocation), false)
  if r.2 then r.1 else r.1 ++ [⟨[inst], det.bbox, dirName, ""⟩]

/-- The area filter and matching part of the detection loop body: read the
box, assert its relative area is in [0,1], skip detections larger than
`maxSuspiciousDetectionSize`, and otherwise run the candidate matching. -/
def clusterDetection (opts : RepeatDetectionOptions) (dirName filename : String)
    (cands : List DetectionLocation) (iDetection : Nat) (det : Detection) :
    Except String (List DetectionLocation) :=
  if det.bbox.length < 4 then .error "IndexError: bbox"
  else
    let w := det.bbox.getD 2 0
    let h := det.bbox.getD 3 0
    let area := h * w
    if ¬ (0 ≤ area ∧ area ≤ 1) then .error "assertion failed: area in [0,1]"
    else if area > opts.maxSuspiciousDetectionSize then .ok cands
    else
      let inst : IndexedDetection := ⟨iDetection, filename, det.bbox, det.conf, det.category⟩
      .ok (matchDetection opts dirName det inst cands)

/-- The detection loop body of `find_matches_in_directory`: confidence
asserts and range filters, the optional excluded-classes filter (which parses
the category as an int and can raise), then the area filter and matching. -/
def processDetection (opts : RepeatDetectionOptions) (dirName filename : String)
    (cands : List DetectionLocation) (iDetection : Nat) (det : Detection) :
    Except String (List DetectionLocation) :=
  if ¬ (0 ≤ det.conf ∧ det.conf ≤ 1) then .error "assertion failed: confidence in [0,1]"
  else if det.conf < opts.confidenceMin then .ok cands
  else if det.conf > opts.confidenceMax then .ok cands
  else if opts.excludeClasses.isEmpty then
    clusterDetection opts dirName filename cands iDetection det
  else
    match det.category.toInt? with
    | none => .error "ValueError: int(category)"
    | some iClass =>
      if iClass ∈ opts.excludeClasses then .ok cands
      else clusterDetection opts dirName filename cands iDetection det

/-- The row loop body of `find_matches_in_directory`: skip non-image files,
skip rows whose cached maximum confidence is below `confidenceMin`, assert the
row then has at least one detection, and process each detection in order. -/
def processRow (opts : RepeatDetectionOptions) (isImg : String → Bool) (dirName : String)
    (cands : List DetectionLocation) (row : DetectionRow) :
    Except String (List DetectionLocation) :=
  if ¬ isImg row.file then .ok cands
  else if row.max_detection_conf < opts.confidenceMin then .ok cands
  else if row.detections.length = 0 then .error "assertion failed: len(detections) > 0"
  else
    foldE (fun acc p => processDetection opts dirName row.file acc p.1 p.2)
      cands (enumFromNat 0 row.detections)

/-- `find_matches_in_directory`: fold the row loop over the directory's rows,
producing this directory's candidate list.  The `is_image_file` test lives in
the external `ct_utils` module and is passed in as a predicate. -/
def find_matches_in_directory (opts : RepeatDetectionOptions) (isImg : String → Bool)
    (rowsByDirectory : List (String × List DetectionRow)) (dirName : String) :
    Except String (List DetectionLocation) :=
  foldE (processRow opts isImg dirName) [] ((assocLookup rowsByDirectory dirName).getD [])

/-! ### Suspicion classifier (occurrence-threshold filter) -/

/-- The filtering loop of `find_repeat_detections`: keep (in order) the
candidates whose instance count reaches the occurrence threshold. -/
def classifySuspicious (occurrenceThreshold : Int) (cands : List DetectionLocation) :
    List DetectionLocation :=
  cands.foldl
    (fun acc c =>
      if (c.instances.length : Int) < occurrenceThreshold then acc else acc ++ [c])
    []

/-! ### Confidence suppression engine (`update_detection_table`) -/

/-- The flattened iteration space of pass 1 of `update_detection_table`: for
each directory, for each suspicious detection event, for each instance, the
pair of the event's representative box and the instance, in loop order. -/
def candidateInstancePairs (susp : List (List DetectionLocation)) :
    List (List ℚ × IndexedDetection) :=
  (susp.map (fun dirEvents =>
    (dirEvents.map (fun ev => ev.instances.map (fun inst => (ev.bbox, inst)))).flatten)).flatten

/-- One pass-1 step: re-check the instance's IoU against the representative
box, resolve the instance back into the table via `filenameToRow` and
`iDetection`, assert the first three box coordinates agree, and negate the
detection's confidence when it is still non-negative. -/
def processInstance (opts : RepeatDetectionOptions) (filenameToRow : List (String × Nat))
    (st : List DetectionRow × Nat) (p : List ℚ × IndexedDetection) :
    Except String (List DetectionRow × Nat) :=
  let locationBbox := p.1
  let inst := p.2
  let iou := get_iou inst.bbox locationBbox
  if iou < opts.iouThreshold then .error "assertion failed: iou >= options.iouThreshold"
  else
    match assocLookup filenameToRow inst.filename with
    | none => .error "assertion failed: instance.filename in filenameToRow"
    | some iRow =>
      match st.1.get? iRow with
      | none => .error "IndexError: iloc"
      | some row =>
        match row.detections.get? inst.iDetection with
        | none => .error "IndexError: rowDetections"
        | some d =>
          if inst.bbox.take 3 ≠ d.bbox.take 3 then
            .error "assertion failed: instanceBbox[0:3] == detectionToModify bbox[0:3]"
          else if 0 ≤ d.conf then
            let negDet := fun (dd : Detection) => { dd with conf := -1 * dd.conf }
            let negRow := fun (r : DetectionRow) =>
              { r with detections := listModify r.detections inst.iDetection negDet }
            .ok (listModify st.1 iRow negRow, st.2 + 1)
          else .ok (st.1, st.2)

/-- Pass 1 of `update_detection_table`: negate the confidence of every
instance of every suspicious candidate, counting changed boxes. -/
def suppressionPass1 (opts : RepeatDetectionOptions) (filenameToRow : List (String × Nat))
    (susp : List (List DetectionLocation)) (table : List DetectionRow) :
    Except String (List DetectionRow × Nat) :=
  foldE (processInstance opts filenameToRow) (table, 0) (candidateInstancePairs susp)

/-- One step of the pass-2 maximum/negative-count loop. -/
def maxConfStep (st : Option ℚ × Nat) (d : Detection) : Option ℚ × Nat :=
  let nNeg := if d.conf < 0 then st.2 + 1 else st.2
  match st.1 with
  | none => (some d.conf, nNeg)
  | some m => (if d.conf > m then some d.conf else some m, nNeg)

/-- Recompute the running maximum confidence and the count of negative
confidences over a row's detections (the inner loop of pass 2). -/
def maxConfAndNegCount (dets : List Detection) : Option ℚ × Nat :=
  dets.foldl maxConfStep ((none, 0) : Option ℚ × Nat)

/-- Counters accumulated by pass 2 of `update_detection_table`. -/
structure Pass2Counters where
  nProbChanges : Nat
  nProbChangesToNegative : Nat
  nProbChangesAcrossThreshold : Nat
deriving DecidableEq

/-- Pass-2 treatment of a single row: skip empty rows, assert the cached
maximum is non-negative, recompute the maximum; when it moved by more than
1e-8 assert it decreased and that some confidence is negative, and write the
new maximum back.  Returns the updated row and the three counter flags. -/
def pass2Row (opts : RepeatDetectionOptions) (row : DetectionRow) :
    Except String (DetectionRow × Bool × Bool × Bool) :=
  if row.detections.length = 0 then .ok (row, false, false, false)
  else
    let maxPOriginal := row.max_detection_conf
    if maxPOriginal < 0 then .error "assertion failed: maxPOriginal >= 0"
    else
      match maxConfAndNegCount row.detections with
      | (none, _) => .error "TypeError: maxP is None"
      | (some maxP, nNegative) =>
        if |maxP - maxPOriginal| > 1 / 100000000 then
          if ¬ (maxP < maxPOriginal) then .error "assertion failed: maxP < maxPOriginal"
          else if nNegative = 0 then .error "assertion failed: nNegative > 0"
          else
            .ok ({ row with max_detection_conf := maxP }, true,
              decide (maxP < 0),
              decide (opts.confidenceMin ≤ maxPOriginal ∧ maxP < opts.confidenceMin))
        else .ok (row, false, false, false)

/-- One pass-2 loop step: process the row and append it to the accumulated
output, bumping the counters. -/
def pass2Step (opts : RepeatDetectionOptions)
    (st : List DetectionRow × Pass2Counters) (row : DetectionRow) :
    Except String (List DetectionRow × Pass2Counters) :=
  match pass2Row opts row with
  | .error e => .error e
  | .ok (row', ch, neg, acr) =>
    .ok (st.1 ++ [row'],
      { nProbChanges := st.2.nProbChanges + (if ch then 1 else 0),
        nProbChangesToNegative := st.2.nProbChangesToNegative + (if neg then 1 else 0),
        nProbChangesAcrossThreshold :=
          st.2.nProbChangesAcrossThreshold + (if acr then 1 else 0) })

/-- Pass 2 of `update_detection_table`: update each row's cached maximum
confidence and accumulate the change counters. -/
def suppressionPass2 (opts : RepeatDetectionOptions) (table : List DetectionRow) :
    Except String (List DetectionRow × Pass2Counters) :=
  foldE (pass2Step opts) ([], ⟨0, 0, 0⟩) table

/-- `update_detection_table`: suppression pass 1 followed by the per-row
maximum-confidence update of pass 2. -/
def update_detection_table (opts : RepeatDetectionOptions)
    (filenameToRow : List (String × Nat)) (susp : List (List DetectionLocation))
    (table : List DetectionRow) :
    Except String (List DetectionRow × Nat × Pass2Counters) :=
  match suppressionPass1 opts filenameToRow susp table with
  | .error e => .error e
  | .ok (t1, nBboxChanges) =>
    match suppressionPass2 opts t1 with
    | .error e => .error e
    | .ok (t2, counters) => .ok (t2, nBboxChanges, counters)

/-! ### Manual-review reload filter -/

/-- Validity of one reloaded candidate: with a keep-list, its sample image
reference must appear in the list; without one, its previously-rendered
sample image must still exist (existence is an external check, passed as a
predicate on the sample reference). -/
def detectionValid (fileList : Option (List String)) (sampleImageExists : String → Bool)
    (detection : DetectionLocation) : Bool :=
  match fileList with
  | none => sampleImageExists detection.sampleImageRelativeFileName
  | some l => l.contains detection.sampleImageRelativeFileName

/-- The reload-mode filtering loop: per directory, compute the validity flag
of every loaded candidate and keep the valid ones via `itertools.compress`. -/
def filterLoadedDetections (fileList : Option (List String))
    (sampleImageExists : String → Bool)
    (suspiciousDetections : List (List DetectionLocation)) :
    List (List DetectionLocation) :=
  suspiciousDetections.map
    (fun detections =>
      pyCompress detections (detections.map (detectionValid fileList sampleImageExists)))

/-! ### Discover-mode pipeline (`find_repeat_detections`) -/

/-- The fields of `RepeatDetectionResults` the core pipeline computes. -/
structure RepeatDetectionResults where
  rowsByDirectory : List (String × List DetectionRow)
  filenameToRow : List (String × Nat)
  dirsToSearch : List String
  suspiciousDetections : List (List DetectionLocation)
  detectionResultsUpdated : List DetectionRow
  nBboxChanges : Nat
deriving DecidableEq

/-- `find_repeat_detections` in discover mode (no filter file): separate the
table into directories, slice the directory list by `debugMaxDir`, cluster
each searched directory, keep candidates above the occurrence threshold, and
update the detection table. -/
def find_repeat_detections (opts : RepeatDetectionOptions) (isImg : String → Bool)
    (detectionResults : List DetectionRow) : Except String RepeatDetectionResults :=
  match separateByDirectory opts.nDirLevelsFromLeaf detectionResults with
  | .error e => .error e
  | .ok (rowsByDirectory, filenameToRow) =>
    let dirsToSearch := pySliceTo (rowsByDirectory.map Prod.fst) opts.debugMaxDir
    match mapE (find_matches_in_directory opts isImg rowsByDirectory) dirsToSearch with
    | .error e => .error e
    | .ok allCandidateDetections =>
      let suspiciousDetections :=
        allCandidateDetections.map (classifySuspicious opts.occurrenceThreshold)
      match update_detection_table opts filenameToRow suspiciousDetections detectionResults with
      | .error e => .error e
      | .ok (updated, nBbox, _counters) =>
        .ok ⟨rowsByDirectory, filenameToRow, dirsToSearch, suspiciousDetections,
          updated, nBbox⟩

/-! ### General lemmas about the loop combinators -/

/-- A reflexive-transitive relation preserved by every successful loop step is
preserved by a whole successful `foldE` run. -/
theorem foldE_rel {σ α : Type} (P : σ → σ → Prop)
    (hrefl : ∀ s, P s s) (htrans : ∀ a b c, P a b → P b c → P a c)
    (f : σ → α → Except String σ) :
    ∀ (l : List α), (∀ s a s', a ∈ l → f s a = .ok s' → P s s') →
      ∀ s s', foldE f s l = .ok s' → P s s' := by
  intro l
  induction l with
  | nil =>
    intro _ s s' h
    simp [foldE] at h
    exact h ▸ hrefl s
  | cons a rest ih =>
    intro hstep s s' h
    cases hfa : f s a with
    | error e => simp [foldE, hfa] at h
    | ok s1 =>
      simp only [foldE, hfa] at h
      exact htrans s s1 s'
        (hstep s a s1 (List.mem_cons_self a rest) hfa)
        (ih (fun s a' s' ha' => hstep s a' s' (List.mem_cons_of_mem a ha')) s1 s' h)

/-- A successful `mapE` run has the input's length and sends the element at
each index to a successful application of `f`. -/
theorem mapE_ok_get {α β : Type} (f : α → Except String β) :
    ∀ (l : List α) (bs : List β), mapE f l = .ok bs →
      bs.length = l.length ∧
      ∀ (j : Nat) (b : β), bs[j]? = some b → ∃ a, l[j]? = some a ∧ f a = .ok b := by
  intro l
  induction l with
  | nil =>
    intro bs h
    simp [mapE] at h
    subst h
    simp
  | cons a rest ih =>
    intro bs h
    cases hfa : f a with
    | error e => simp [mapE, hfa] at h
    | ok b =>
      cases hrest : mapE f rest with
      | error e => simp [mapE, hfa, hrest] at h
      | ok bs' =>
        simp only [mapE, hfa, hrest] at h
        cases h
        obtain ⟨hlen, hget⟩ := ih bs' hrest
        constructor
        · simp [hlen]
        · intro j c hj
          cases j with
          | zero =>
            simp at hj
            exact ⟨a, by simp, hj ▸ hfa⟩
          | succ j' =>
            simp at hj
            obtain ⟨a', ha', hfa'⟩ := hget j' c hj
            exact ⟨a', by simpa using ha', hfa'⟩

/-- `listModify` rewrites the targeted index with `f` applied to the old
element. -/
theorem listModify_get_same {α : Type} :
    ∀ (l : List α) (i : Nat) (f : α → α) (x : α),
      l[i]? = some x → (listModify l i f)[i]? = some (f x) := by
  intro l
  induction l with
  | nil => intro i f x h; simp at h
  | cons a rest ih =>
    intro i f x h
    cases i with
    | zero => simp at h; simp [listModify, h]
    | succ i' => simp at h; simpa [listModify] using ih i' f x h

/-- `listModify` leaves every other index unchanged. -/
theorem listModify_get_other {α : Type} :
    ∀ (l : List α) (j i : Nat) (f : α → α),
      i ≠ j → (listModify l j f)[i]? = l[i]? := by
  intro l
  induction l with
  | nil => intro j i f _; simp [listModify]
  | cons a rest ih =>
    intro j i f hne
    cases j with
    | zero =>
      cases i with
      | zero => exact absurd rfl hne
      | succ i' => simp [listModify]
    | succ j' =>
      cases i with
      | zero => simp [listModify]
      | succ i' => simpa [listModify] using ih j' i' f (fun h => hne (by simp [h]))

/-- `listModify` preserves length. -/
theorem listModify_length {α : Type} :
    ∀ (l : List α) (i : Nat) (f : α → α), (listModify l i f).length = l.length := by
  intro l
  induction l with
  | nil => intro i f; simp [listModify]
  | cons a rest ih =>
    intro i f
    cases i with
    | zero => simp [listModify]
    | succ i' => simp [listModify, ih]

/-- Compressing a list against the pointwise image of a boolean predicate is
filtering by that predicate. -/
theorem pyCompress_map_eq_filter {α : Type} (p : α → Bool) :
    ∀ (l : List α), pyCompress l (l.map p) = l.filter p := by
  intro l
  induction l with
  | nil => simp [pyCompress]
  | cons a rest ih =>
    by_cases hpa : p a
    · simp [pyCompress, hpa] at ih ⊢
      exact ih
    · simp [pyCompress, hpa] at ih ⊢
      exact ih

/-! ### Characterizations of the clustering merge policy -/

/-- Decidable version of the membership test in the candidate loop. -/
def matchesCand (iouThreshold : ℚ) (bbox : List ℚ) (cand : DetectionLocation) : Bool :=
  decide (iouThreshold ≤ get_iou bbox cand.bbox)

/-- The candidate fold of `find_matches_in_directory`, characterized: every
matching candidate receives the instance, order is preserved, and the found
flag records whether any candidate matched. -/
theorem matchStep_foldl_eq (inst : IndexedDetection) (thr : ℚ) (bbox : List ℚ) :
    ∀ (cands : List DetectionLocation) (acc : List DetectionLocation) (b : Bool),
      cands.foldl (matchStep inst thr bbox) (acc, b) =
        (acc ++ cands.map (fun c =>
          if thr ≤ get_iou bbox c.bbox then { c with instances := c.instances ++ [inst] } else c),
         b || cands.any (matchesCand thr bbox)) := by
  intro cands
  induction cands with
  | nil => intro acc b; simp
  | cons c rest ih =>
    intro acc b
    by_cases hm : thr ≤ get_iou bbox c.bbox
    · simp only [List.foldl_cons, matchStep, if_pos hm, ih, List.map_cons, List.any_cons]
      simp [matchesCand, hm]
    · simp only [List.foldl_cons, matchStep, if_neg hm, ih, List.map_cons, List.any_cons]
      simp [matchesCand, hm]

/-- `matchDetection`, characterized: each existing candidate whose IoU with
the detection's box clears the threshold gets the instance appended (several
may), the others are unchanged, and a fresh candidate with the detection's
box as representative is appended exactly when no candidate matched. -/
theorem matchDetection_eq (opts : RepeatDetectionOptions) (dirName : String)
    (det : Detection) (inst : IndexedDetection) (cands : List DetectionLocation) :
    matchDetection opts dirName det inst cands =
      cands.map (fun c =>
        if opts.iouThreshold ≤ get_iou det.bbox c.bbox then
          { c with instances := c.instances ++ [inst] } else c)
      ++ (if cands.any (matchesCand opts.iouThreshold det.bbox) then []
          else [⟨[inst], det.bbox, dirName, ""⟩]) := by
  unfold matchDetection
  rw [matchStep_foldl_eq]
  by_cases hb : cands.any (matchesCand opts.iouThreshold det.bbox)
  · simp [hb]
  · simp [hb]

/-- After `matchDetection`, the instance is a member of at least one output
candidate (an eligible detection always lands somewhere). -/
theorem matchDetection_mem_inst (opts : RepeatDetectionOptions) (dirName : String)
    (det : Detection) (inst : IndexedDetection) (cands : List DetectionLocation) :
    ∃ c ∈ matchDetection opts dirName det inst cands, inst ∈ c.instances := by
  rw [matchDetection_eq]
  by_cases hb : cands.any (matchesCand opts.iouThreshold det.bbox)
  · obtain ⟨c0, hc0, hm⟩ := List.any_eq_true.mp hb
    refine ⟨{ c0 with instances := c0.instances ++ [inst] }, ?_, by simp⟩
    apply List.mem_append_left
    apply List.mem_map.mpr
    exact ⟨c0, hc0, by simp [matchesCand] at hm; simp [hm]⟩
  · refine ⟨⟨[inst], det.bbox, dirName, ""⟩, ?_, by simp⟩
    simp [hb]

/-! ### Characterization of the suspicion classifier -/

/-- The occurrence-threshold loop is a pure filter. -/
theorem classifySuspicious_eq_filter (thr : Int) (cands : List DetectionLocation) :
    classifySuspicious thr cands =
      cands.filter (fun c => decide (thr ≤ (c.instances.length : Int))) := by
  unfold classifySuspicious
  suffices h : ∀ (l : List DetectionLocation) (acc : List DetectionLocation),
      l.foldl (fun acc c =>
        if (c.instances.length : Int) < thr then acc else acc ++ [c]) acc =
      acc ++ l.filter (fun c => decide (thr ≤ (c.instances.length : Int))) by
    simpa using h cands []
  intro l
  induction l with
  | nil => intro acc; simp
  | cons c rest ih =>
    intro acc
    by_cases hc : (c.instances.length : Int) < thr
    · have : ¬ thr ≤ (c.instances.length : Int) := not_le.mpr hc
      simp [hc, ih, this]
    · have : thr ≤ (c.instances.length : Int) := not_lt.mp hc
      simp [hc, ih, this]

/-! ### Claim C7: clustering membership policy -/

/-- C7: within one directory group, a detection surviving the filters is
appended as a new instance to every existing candidate whose representative
box has IoU at or above `iouThreshold` with its box (it may join several; no
exclusivity or best-match tie-break), and a new candidate with this
detection's box as representative is created if and only if it matched zero
existing candidates. -/
theorem claim_C7_membership_policy (opts : RepeatDetectionOptions) (dirName : String)
    (det : Detection) (inst : IndexedDetection) (cands : List DetectionLocation) :
    matchDetection opts dirName det inst cands =
      cands.map (fun c =>
        if opts.iouThreshold ≤ get_iou det.bbox c.bbox then
          { c with instances := c.instances ++ [inst] } else c)
      ++ (if cands.any (matchesCand opts.iouThreshold det.bbox) then []
          else [⟨[inst], det.bbox, dirName, ""⟩]) :=
  matchDetection_eq opts dirName det inst cands

/-! ### Claim C5: occurrence-threshold boundary -/

/-- C5: a candidate is flagged suspicious iff its instance count reaches the
occurrence threshold; in particular a candidate with exactly threshold minus
one instances is never flagged, and one with exactly the threshold count
always is. -/
theorem claim_C5_occurrence_threshold (thr : Int) (cands : List DetectionLocation)
    (c : DetectionLocation) :
    (c ∈ classifySuspicious thr cands ↔ c ∈ cands ∧ thr ≤ (c.instances.length : Int)) ∧
    ((c.instances.length : Int) = thr - 1 → c ∉ classifySuspicious thr cands) ∧
    ((c.instances.length : Int) = thr → c ∈ cands → c ∈ classifySuspicious thr cands) := by
  have hmem : c ∈ classifySuspicious thr cands ↔
      c ∈ cands ∧ thr ≤ (c.instances.length : Int) := by
    rw [classifySuspicious_eq_filter]
    simp [List.mem_filter]
  refine ⟨hmem, ?_, ?_⟩
  · intro hlen hc
    obtain ⟨-, hle⟩ := hmem.mp hc
    omega
  · intro hlen hc
    exact hmem.mpr ⟨hc, by omega⟩

/-- A one-instance candidate used as concrete input. -/
def c5Cand : DetectionLocation := ⟨[⟨0, "A/x.jpg", [], 1/2, "1"⟩], [], "A", ""⟩

/-- Witness for C5 at a concrete candidate: one instance is below a threshold
of two and meets a threshold of one. -/
theorem claim_C5_occurrence_threshold_witness :
    c5Cand ∉ classifySuspicious 2 [c5Cand] ∧ c5Cand ∈ classifySuspicious 1 [c5Cand] :=
  ⟨(claim_C5_occurrence_threshold 2 [c5Cand] c5Cand).2.1 (by simp [c5Cand]),
   (claim_C5_occurrence_threshold 1 [c5Cand] c5Cand).2.2 (by simp [c5Cand]) (by simp)⟩

/-! ### Claim C8: manual-review reload filtering -/

/-- C8: a reloaded candidate is retained iff a keep-list was supplied and its
sample image reference appears in it, or no keep-list was supplied and its
sample image still exists; invalid candidates are dropped whole and retained
ones are kept verbatim (the per-directory list becomes a pure filter). -/
theorem claim_C8_reload_filtering (fileList : Option (List String))
    (sampleImageExists : String → Bool) (susp : List (List DetectionLocation))
    (iDir : Nat) (dets : List DetectionLocation) (d : DetectionLocation)
    (h : susp[iDir]? = some dets) :
    (filterLoadedDetections fileList sampleImageExists susp)[iDir]? =
      some (dets.filter (detectionValid fileList sampleImageExists)) ∧
    (d ∈ dets.filter (detectionValid fileList sampleImageExists) ↔
      d ∈ dets ∧
        ((∃ l, fileList = some l ∧ d.sampleImageRelativeFileName ∈ l) ∨
         (fileList = none ∧ sampleImageExists d.sampleImageRelativeFileName = true))) := by
  constructor
  · simp [filterLoadedDetections, h, pyCompress_map_eq_filter]
  · constructor
    · intro hd
      rw [List.mem_filter] at hd
      refine ⟨hd.1, ?_⟩
      cases fileList with
      | none => exact Or.inr ⟨rfl, by simpa [detectionValid] using hd.2⟩
      | some l =>
        refine Or.inl ⟨l, rfl, ?_⟩
        have := hd.2
        simp [detectionValid] at this
        exact this
    · rintro ⟨hd, hv⟩
      rw [List.mem_filter]
      refine ⟨hd, ?_⟩
      rcases hv with ⟨l, hfl, hm⟩ | ⟨hfl, hex⟩
      · subst hfl
        simp [detectionValid]
        exact hm
      · subst hfl
        simpa [detectionValid] using hex

/-- Candidates used as concrete reload-filter inputs. -/
def c8Keep : DetectionLocation := ⟨[], [], "A", "keep.jpg"⟩

/-- A candidate whose sample image reference is not on the keep-list. -/
def c8Drop : DetectionLocation := ⟨[], [], "A", "drop.jpg"⟩

/-- Witness for C8: with keep-list containing only the first candidate's
sample reference, that candidate is retained and the other dropped. -/
theorem claim_C8_reload_filtering_witness :
    (filterLoadedDetections (some ["keep.jpg"]) (fun _ => false) [[c8Keep, c8Drop]])[0]? =
      some ([c8Keep, c8Drop].filter (detectionValid (some ["keep.jpg"]) (fun _ => false))) ∧
    (c8Keep ∈ [c8Keep, c8Drop].filter (detectionValid (some ["keep.jpg"]) (fun _ => false)) ↔
      c8Keep ∈ [c8Keep, c8Drop] ∧
        ((∃ l, (some ["keep.jpg"] : Option (List String)) = some l ∧
            c8Keep.sampleImageRelativeFileName ∈ l) ∨
         ((some ["keep.jpg"] : Option (List String)) = none ∧
            (fun (_ : String) => false) c8Keep.sampleImageRelativeFileName = true))) :=
  claim_C8_reload_filtering (some ["keep.jpg"]) (fun _ => false) [[c8Keep, c8Drop]] 0
    [c8Keep, c8Drop] c8Keep rfl

/-! ### Claim C10: pass-1 box consistency check uses only three coordinates -/

/-- C10: the pass-1 consistency check compares only the first three box
coordinates; an instance whose recorded box agrees with the table's detection
on x_min, y_min and width but differs in height passes the check and the
detection's confidence is negated anyway. -/
theorem claim_C10_bbox_check_three_coords (opts : RepeatDetectionOptions)
    (f2r : List (String × Nat)) (table : List DetectionRow) (n : Nat)
    (locationBbox : List ℚ) (inst : IndexedDetection) (iRow : Nat)
    (row : DetectionRow) (d : Detection)
    (hiou : ¬ (get_iou inst.bbox locationBbox < opts.iouThreshold))
    (hlook : assocLookup f2r inst.filename = some iRow)
    (hrow : table[iRow]? = some row)
    (hd : row.detections[inst.iDetection]? = some d)
    (hpre3 : inst.bbox.take 3 = d.bbox.take 3)
    (hheight : inst.bbox.getD 3 0 ≠ d.bbox.getD 3 0)
    (hconf : 0 ≤ d.conf) :
    inst.bbox ≠ d.bbox ∧
    ∃ table', processInstance opts f2r (table, n) (locationBbox, inst) = .ok (table', n + 1) ∧
      confAt table' iRow inst.iDetection = some (-1 * d.conf) := by
  refine ⟨fun he => hheight (by rw [he]), ?_⟩
  refine ⟨listModify table iRow (fun r =>
    { r with detections :=
        listModify r.detections inst.iDetection (fun dd => { dd with conf := -1 * dd.conf }) }),
    ?_, ?_⟩
  · simp [processInstance, hiou, hlook, List.get?_eq_getElem?, hrow, hd, hpre3, hconf]
  · have h1 := listModify_get_same table iRow (fun r =>
      { r with detections :=
          listModify r.detections inst.iDetection (fun dd => { dd with conf := -1 * dd.conf }) })
      row hrow
    have h2 := listModify_get_same row.detections inst.iDetection
      (fun dd => { dd with conf := -1 * dd.conf }) d hd
    simp only [neg_one_mul] at h1 h2
    simp [confAt, h1, h2]

/-- Concrete table row for the C10 witness: its box height is 2 where the
instance records 1. -/
def c10Row : DetectionRow := ⟨"x.jpg", 1/2, [⟨"1", 1/2, [0, 0, 1, 2]⟩]⟩

/-- Concrete instance for the C10 witness. -/
def c10Inst : IndexedDetection := ⟨0, "x.jpg", [0, 0, 1, 1], 1/2, "1"⟩

/-- Witness for C10: the height-mismatched instance still passes the check
and its table detection is negated. -/
theorem claim_C10_bbox_check_three_coords_witness :
    c10Inst.bbox ≠ (⟨"1", 1/2, [0, 0, 1, 2]⟩ : Detection).bbox ∧
    ∃ table', processInstance {} [("x.jpg", 0)] ([c10Row], 0) ([0, 0, 1, 1], c10Inst) =
        .ok (table', 0 + 1) ∧
      confAt table' 0 c10Inst.iDetection = some (-1 * (1/2)) :=
  claim_C10_bbox_check_three_coords {} [("x.jpg", 0)] [c10Row] 0 [0, 0, 1, 1] c10Inst 0
    c10Row ⟨"1", 1/2, [0, 0, 1, 2]⟩
    (by norm_num [get_iou, c10Inst])
    (by simp [c10Inst, assocLookup])
    rfl rfl
    (by simp [c10Inst])
    (by norm_num [c10Inst])
    (by norm_num)

/-! ### Claim C6: area filter boundary -/

/-- A box whose relative area is exactly the default
`maxSuspiciousDetectionSize` of 0.2. -/
def c6Bbox : List ℚ := [1/10, 1/10, 1/2, 2/5]

/-- A one-detection row carrying the boundary-area box. -/
def c6Row : DetectionRow := ⟨"A/x.jpg", 9/10, [⟨"1", 9/10, c6Bbox⟩]⟩

/-- C6 counterexample: a detection whose relative area equals
`maxSuspiciousDetectionSize` exactly is not excluded: under default options it
founds a candidate of its own, contradicting the claim that it joins no
candidate and founds none. -/
theorem claim_C6_area_filter_counterexample :
    (c6Bbox.getD 3 0) * (c6Bbox.getD 2 0) =
      ({} : RepeatDetectionOptions).maxSuspiciousDetectionSize ∧
    find_matches_in_directory {} (fun _ => true) [("A", [c6Row])] "A" =
      .ok [⟨[⟨0, "A/x.jpg", c6Bbox, 9/10, "1"⟩], c6Bbox, "A", ""⟩] := by
  constructor
  · norm_num [c6Bbox]
  · have hA : ¬ ((9:ℚ)/10 < 849/1000) := by norm_num
    have hB1 : (0:ℚ) ≤ 9/10 := by norm_num
    have hB2 : (9:ℚ)/10 ≤ 1 := by norm_num
    have hC : ¬ ((1:ℚ) < 9/10) := by norm_num
    have hlen : c6Bbox.length = 4 := by simp [c6Bbox]
    have hx2 : c6Bbox[2] = (2:ℚ)⁻¹ := by norm_num [c6Bbox]
    have hx3 : c6Bbox[3] = (2:ℚ)/5 := by norm_num [c6Bbox]
    have ha1 : ¬ ((1:ℚ) < 2/5 * 2⁻¹) := by norm_num
    have ha0 : (0:ℚ) ≤ 2/5 * 2⁻¹ := by norm_num
    have ha2 : ¬ ((1/5:ℚ) < 2/5 * 2⁻¹) := by norm_num
    have ha2i : ¬ ((5:ℚ)⁻¹ < 2/5 * 2⁻¹) := by norm_num
    simp [find_matches_in_directory, assocLookup, foldE, processRow, processDetection,
      clusterDetection, matchDetection, enumFromNat, c6Row, hA, hB1, hB2, hC, hlen,
      hx2, hx3, ha1, ha0, ha2, ha2i]

/-- C6 amended: a surviving detection is excluded from candidacy when its
relative area strictly exceeds `maxSuspiciousDetectionSize` (the candidate
list is returned unchanged); a detection with area at or below the bound,
including exactly equal, stays eligible and lands in some candidate. -/
theorem claim_C6_area_filter_amended (opts : RepeatDetectionOptions)
    (dirName filename : String) (cands : List DetectionLocation)
    (iDetection : Nat) (det : Detection)
    (hc0 : 0 ≤ det.conf) (hc1 : det.conf ≤ 1)
    (hcmin : ¬ det.conf < opts.confidenceMin)
    (hcmax : ¬ det.conf > opts.confidenceMax)
    (hexc : opts.excludeClasses = [] ∨
      ∃ k, det.category.toInt? = some k ∧ k ∉ opts.excludeClasses)
    (hblen : ¬ det.bbox.length < 4)
    (ha0 : 0 ≤ det.bbox.getD 3 0 * det.bbox.getD 2 0)
    (ha1 : det.bbox.getD 3 0 * det.bbox.getD 2 0 ≤ 1) :
    (det.bbox.getD 3 0 * det.bbox.getD 2 0 > opts.maxSuspiciousDetectionSize →
      processDetection opts dirName filename cands iDetection det = .ok cands) ∧
    (¬ det.bbox.getD 3 0 * det.bbox.getD 2 0 > opts.maxSuspiciousDetectionSize →
      ∃ out, processDetection opts dirName filename cands iDetection det = .ok out ∧
        ∃ c ∈ out,
          (⟨iDetection, filename, det.bbox, det.conf, det.category⟩ : IndexedDetection) ∈
            c.instances) := by
  have ha0' : (0:ℚ) ≤ det.bbox[3]?.getD (0:ℚ) * det.bbox[2]?.getD (0:ℚ) := by simpa using ha0
  have ha1' : det.bbox[3]?.getD (0:ℚ) * det.bbox[2]?.getD (0:ℚ) ≤ (1:ℚ) := by simpa using ha1
  constructor
  · intro hgt
    have hgt' : opts.maxSuspiciousDetectionSize < det.bbox[3]?.getD (0:ℚ) * det.bbox[2]?.getD (0:ℚ) := by
      simpa using hgt
    rcases hexc with he | ⟨k, hk, hkn⟩
    · simp [processDetection, clusterDetection, hc0, hc1, hcmin, hcmax, he, hblen,
        ha0', ha1', hgt']
    · simp [processDetection, clusterDetection, hc0, hc1, hcmin, hcmax, hk, hkn, hblen,
        ha0', ha1', hgt']
  · intro hle
    have hle' : ¬ opts.maxSuspiciousDetectionSize < det.bbox[3]?.getD (0:ℚ) * det.bbox[2]?.getD (0:ℚ) := by
      simpa using hle
    rcases hexc with he | ⟨k, hk, hkn⟩
    · refine ⟨matchDetection opts dirName det
        ⟨iDetection, filename, det.bbox, det.conf, det.category⟩ cands, ?_, ?_⟩
      · simp [processDetection, clusterDetection, hc0, hc1, hcmin, hcmax, he, hblen,
          ha0', ha1', hle']
      · exact matchDetection_mem_inst opts dirName det _ cands
    · refine ⟨matchDetection opts dirName det
        ⟨iDetection, filename, det.bbox, det.conf, det.category⟩ cands, ?_, ?_⟩
      · simp [processDetection, clusterDetection, hc0, hc1, hcmin, hcmax, hk, hkn, hblen,
          ha0', ha1', hle']
      · exact matchDetection_mem_inst opts dirName det _ cands

/-- Witness for the amended C6 at the boundary box: under default options the
boundary-area detection is eligible and lands in a candidate, and a detection
with area above the bound leaves the candidate list unchanged. -/
theorem claim_C6_area_filter_amended_witness :
    (∃ out, processDetection {} "A" "A/x.jpg" [] 0 ⟨"1", 9/10, c6Bbox⟩ = .ok out ∧
      ∃ c ∈ out,
        (⟨0, "A/x.jpg", c6Bbox, 9/10, "1"⟩ : IndexedDetection) ∈ c.instances) ∧
    processDetection {} "A" "A/x.jpg" [] 0 ⟨"1", 9/10, [0, 0, 1, 1/2]⟩ = .ok [] :=
  ⟨(claim_C6_area_filter_amended {} "A" "A/x.jpg" [] 0 ⟨"1", 9/10, c6Bbox⟩
      (by norm_num) (by norm_num) (by norm_num) (by norm_num) (Or.inl rfl)
      (by simp [c6Bbox]) (by norm_num [c6Bbox]) (by norm_num [c6Bbox])).2
      (by norm_num [c6Bbox]),
   (claim_C6_area_filter_amended {} "A" "A/x.jpg" [] 0 ⟨"1", 9/10, [0, 0, 1, 1/2]⟩
      (by norm_num) (by norm_num) (by norm_num) (by norm_num) (Or.inl rfl)
      (by simp) (by norm_num) (by norm_num)).1
      (by norm_num)⟩

/-! ### Claim C1: the 20-image single-directory example scenario -/

/-- The example scenario's box (relative area 1/400). -/
def c1Bbox : List ℚ := [1/10, 1/10, 1/20, 1/20]

/-- The example scenario's detection: category "1", confidence 0.9. -/
def c1Det : Detection := ⟨"1", 9/10, c1Bbox⟩

/-- An example-scenario row for a given file path. -/
def c1Row (f : String) : DetectionRow := ⟨f, 9/10, [c1Det]⟩

/-- Twenty image paths, all in directory `A`. -/
def c1Files : List String := ["A/i00.jpg", "A/i01.jpg", "A/i02.jpg", "A/i03.jpg", "A/i04.jpg", "A/i05.jpg", "A/i06.jpg", "A/i07.jpg", "A/i08.jpg", "A/i09.jpg", "A/i10.jpg", "A/i11.jpg", "A/i12.jpg", "A/i13.jpg", "A/i14.jpg", "A/i15.jpg", "A/i16.jpg", "A/i17.jpg", "A/i18.jpg", "A/i19.jpg"]

/-- The example scenario's detection table. -/
def c1Table : List DetectionRow := c1Files.map c1Row

/-- The scenario configuration: confidenceMin 0.85, all else default (and in
particular `debugMaxDir = -1`). -/
def c1Opts : RepeatDetectionOptions := { confidenceMin := 85 / 100 }

/-- The scenario configuration with `debugMaxDir` set so that the single
directory is actually searched (the spec's evident intent). -/
def c1OptsFixed : RepeatDetectionOptions := { confidenceMin := 85 / 100, debugMaxDir := 1 }

/-- The instance the clustering records for each scenario image. -/
def c1Inst (f : String) : IndexedDetection := ⟨0, f, c1Bbox, 9/10, "1"⟩

/-- The single location candidate the scenario's intent produces: all twenty
images' detections at the shared box. -/
def c1Cand : DetectionLocation := ⟨c1Files.map c1Inst, c1Bbox, "A", ""⟩

/-- The filename-to-row index of the scenario table. -/
def c1F2r : List (String × Nat) := c1Files.zip (List.range 20)

/-- A scenario row after suppression: confidence and cached maximum both
negated to -0.9. -/
def c1RowOut (f : String) : DetectionRow := ⟨f, -(9/10), [⟨"1", -(9/10), c1Bbox⟩]⟩

theorem c1_sep : separateByDirectory 0 c1Table = .ok ([("A", c1Table)], c1F2r) := by
  have hd : ∀ f ∈ c1Files, directoryKey 0 f = "A" := by decide
  simp [separateByDirectory, c1Table, c1Files, c1Row, separateAux, assocAppend, assocLookup,
    hd, c1F2r, List.range_succ]

set_option maxHeartbeats 1600000 in
theorem c1_match :
    ∀ opts : RepeatDetectionOptions, opts.confidenceMin = 85 / 100 →
      opts.confidenceMax = 1 → opts.iouThreshold = 9 / 10 →
      opts.maxSuspiciousDetectionSize = 1 / 5 → opts.excludeClasses = [] →
      find_matches_in_directory opts (fun _ => true) [("A", c1Table)] "A" = .ok [c1Cand] := by
  intro opts h1 h2 h3 h4 h5
  have hA : ¬ ((9:ℚ)/10 < 85/100) := by norm_num
  have hB1 : (0:ℚ) ≤ 9/10 := by norm_num
  have hB2 : (9:ℚ)/10 ≤ 1 := by norm_num
  have hC : ¬ ((1:ℚ) < 9/10) := by norm_num
  have hlen : c1Bbox.length = 4 := by simp [c1Bbox]
  have hx2 : c1Bbox[2] = (20:ℚ)⁻¹ := by norm_num [c1Bbox]
  have hx3 : c1Bbox[3] = (20:ℚ)⁻¹ := by norm_num [c1Bbox]
  have ha1 : ¬ ((1:ℚ) < 20⁻¹ * 20⁻¹) := by norm_num
  have ha0 : (0:ℚ) ≤ 20⁻¹ * 20⁻¹ := by norm_num
  have ha2 : ¬ ((5:ℚ)⁻¹ < 20⁻¹ * 20⁻¹) := by norm_num
  have hF : (9:ℚ)/10 ≤ get_iou c1Bbox c1Bbox := by norm_num [get_iou, c1Bbox]
  simp [find_matches_in_directory, assocLookup, foldE, processRow, processDetection,
    clusterDetection, matchDetection, matchStep, enumFromNat, c1Table, c1Files,
    c1Row, c1Det, c1Inst, c1Cand, h1, h2, h3, h4, h5, hA, hB1, hB2, hC, hlen,
    hx2, hx3, ha1, ha0, ha2, hF]

set_option maxHeartbeats 1600000 in
theorem c1_update :
    ∀ opts : RepeatDetectionOptions, opts.confidenceMin = 85 / 100 →
      opts.iouThreshold = 9 / 10 →
      update_detection_table opts c1F2r [[c1Cand]] c1Table =
        .ok (c1Files.map c1RowOut, 20, ⟨20, 20, 20⟩) := by
  intro opts h1 h3
  have hG : ¬ (get_iou c1Bbox c1Bbox < (9:ℚ)/10) := by norm_num [get_iou, c1Bbox]
  have hB1 : (0:ℚ) ≤ 9/10 := by norm_num
  have hH : ¬ ((9:ℚ)/10 < 0) := by norm_num
  have hI : (-(9/10) : ℚ) < 0 := by norm_num
  have hJ : (100000000:ℚ)⁻¹ < |(-(9/10) : ℚ) - 9/10| := by
    rw [abs_of_nonpos (by norm_num)]
    norm_num
  have hacr1 : (85:ℚ)/100 ≤ 9/10 := by norm_num
  have hacr2 : (-(9/10) : ℚ) < 85/100 := by norm_num
  simp [update_detection_table, suppressionPass1, suppressionPass2, foldE,
    candidateInstancePairs, processInstance, c1Cand, c1Inst, c1F2r, c1Table, c1Files,
    c1Row, c1Det, c1RowOut, h1, h3, List.range_succ, listModify, maxConfAndNegCount,
    maxConfStep, pass2Step, pass2Row, assocLookup, hG, hB1, hH, hI, hJ, hacr1, hacr2]

set_option maxHeartbeats 1600000 in
theorem c1_update_nosusp :
    ∀ opts : RepeatDetectionOptions,
      update_detection_table opts c1F2r [] c1Table = .ok (c1Table, 0, ⟨0, 0, 0⟩) := by
  intro opts
  have hH : ¬ ((9:ℚ)/10 < 0) := by norm_num
  have hO : ¬ ((100000000:ℚ)⁻¹ < |(9/10 : ℚ) - 9/10|) := by norm_num
  have hO2 : ¬ ((100000000:ℚ) < 0) := by norm_num
  simp [update_detection_table, suppressionPass1, suppressionPass2, foldE,
    candidateInstancePairs, processInstance, c1Table, c1Files, c1Row, c1Det,
    maxConfAndNegCount, maxConfStep, pass2Step, pass2Row, hH, hO, hO2]

theorem c1_classify : classifySuspicious 15 [c1Cand] = [c1Cand] := by
  have h20 : c1Cand.instances.length = 20 := by simp [c1Cand, c1Files]
  simp [classifySuspicious, h20]

theorem c1_scenario_default :
    find_repeat_detections c1Opts (fun _ => true) c1Table =
      .ok ⟨[("A", c1Table)], c1F2r, [], [], c1Table, 0⟩ := by
  have hsep : separateByDirectory c1Opts.nDirLevelsFromLeaf c1Table =
      .ok ([("A", c1Table)], c1F2r) := by
    have h : c1Opts.nDirLevelsFromLeaf = 0 := by simp [c1Opts]
    rw [h, c1_sep]
  simp [find_repeat_detections, hsep, pySliceTo, mapE, c1_update_nosusp,
    show c1Opts.debugMaxDir = -1 by simp [c1Opts]]

theorem c1_scenario_fixed :
    find_repeat_detections c1OptsFixed (fun _ => true) c1Table =
      .ok ⟨[("A", c1Table)], c1F2r, ["A"], [[c1Cand]], c1Files.map c1RowOut, 20⟩ := by
  have hsep : separateByDirectory c1OptsFixed.nDirLevelsFromLeaf c1Table =
      .ok ([("A", c1Table)], c1F2r) := by
    have h : c1OptsFixed.nDirLevelsFromLeaf = 0 := by simp [c1OptsFixed]
    rw [h, c1_sep]
  have hm := c1_match c1OptsFixed (by simp [c1OptsFixed]) (by simp [c1OptsFixed])
    (by simp [c1OptsFixed]) (by simp [c1OptsFixed]) (by simp [c1OptsFixed])
  have hu := c1_update c1OptsFixed (by simp [c1OptsFixed]) (by simp [c1OptsFixed])
  have hocc : c1OptsFixed.occurrenceThreshold = 15 := by simp [c1OptsFixed]
  simp [find_repeat_detections, hsep, pySliceTo, mapE, hm, hu, hocc, c1_classify,
    show c1OptsFixed.debugMaxDir = 1 by simp [c1OptsFixed]]

/-- C1: on the spec's example scenario (20 images in one directory `A`, each
with one detection at the shared box with confidence 0.9, occurrence
threshold 15, IoU threshold 0.9, confidenceMin 0.85, other options default),
the code does NOT behave as claimed: because `debugMaxDir` defaults to -1 and
`dirsToSearch` is the python slice `keys[0:-1]`, the only directory is
dropped, no candidate is formed, nothing is flagged, and every confidence is
left at 0.9.  With the debug slice made inclusive (`debugMaxDir = 1`), the
pipeline produces exactly the claimed result: one candidate with 20
instances, flagged suspicious, and all 20 detections at confidence -0.9. -/
theorem claim_C1_example_scenario :
    find_repeat_detections c1Opts (fun _ => true) c1Table =
      .ok ⟨[("A", c1Table)], c1F2r, [], [], c1Table, 0⟩ ∧
    find_repeat_detections c1OptsFixed (fun _ => true) c1Table =
      .ok ⟨[("A", c1Table)], c1F2r, ["A"], [[c1Cand]], c1Files.map c1RowOut, 20⟩ ∧
    c1Cand.instances.length = 20 ∧
    (c1Files.map c1RowOut).map (fun r => r.detections.map (fun d => d.conf)) =
      List.replicate 20 [-(9/10)] := by
  refine ⟨c1_scenario_default, c1_scenario_fixed, by simp [c1Cand, c1Files], ?_⟩
  simp [c1Files, c1RowOut, List.replicate]

/-! ### Claim C3: idempotent suppression in pass 1 -/

/-- How one pass-1 step may change one stored confidence: an already-negative
value is left unchanged, and any change is the negation of a non-negative
value. -/
def ConfStep (c c' : ℚ) : Prop :=
  (c < 0 → c' = c) ∧ (c' = c ∨ (0 ≤ c ∧ c' = -c))

theorem ConfStep_refl (c : ℚ) : ConfStep c c :=
  ⟨fun _ => rfl, Or.inl rfl⟩

theorem ConfStep_trans {a b c : ℚ} (h1 : ConfStep a b) (h2 : ConfStep b c) :
    ConfStep a c := by
  obtain ⟨hn1, he1⟩ := h1
  obtain ⟨hn2, he2⟩ := h2
  constructor
  · intro ha
    rw [hn2 ((hn1 ha) ▸ ha), hn1 ha]
  · rcases he1 with h1' | ⟨ha, h1'⟩
    · rcases he2 with h2' | ⟨hb, h2'⟩
      · exact Or.inl (h2'.trans h1')
      · exact Or.inr ⟨h1' ▸ hb, h2'.trans (by rw [h1'])⟩
    · rcases he2 with h2' | ⟨hb, h2'⟩
      · exact Or.inr ⟨ha, h2'.trans h1'⟩
      · rcases lt_or_le a 0 with hlt | hge
        · exact Or.inl ((hn2 (hn1 hlt ▸ hlt)).trans (hn1 hlt))
        · have hb' : b = -a := h1'
          have ha0 : a = 0 := le_antisymm (by simpa [hb'] using hb) hge
          exact Or.inl (by rw [h2', h1', ha0]; simp)

/-- Pointwise `ConfStep` between two tables, with shape preservation. -/
def TableStep (t t' : List DetectionRow) : Prop :=
  ∀ i j c, confAt t i j = some c → ∃ c', confAt t' i j = some c' ∧ ConfStep c c'

theorem TableStep_refl (t : List DetectionRow) : TableStep t t :=
  fun _ _ c h => ⟨c, h, ConfStep_refl c⟩

theorem TableStep_trans {a b c : List DetectionRow} (h1 : TableStep a b)
    (h2 : TableStep b c) : TableStep a c := by
  intro i j x hx
  obtain ⟨y, hy, s1⟩ := h1 i j x hx
  obtain ⟨z, hz, s2⟩ := h2 i j y hy
  exact ⟨z, hz, ConfStep_trans s1 s2⟩

/-- One pass-1 step relates input and output tables by `TableStep`. -/
theorem processInstance_tableStep (opts : RepeatDetectionOptions)
    (f2r : List (String × Nat)) (st st' : List DetectionRow × Nat)
    (p : List ℚ × IndexedDetection)
    (h : processInstance opts f2r st p = .ok st') : TableStep st.1 st'.1 := by
  obtain ⟨locBbox, inst⟩ := p
  by_cases hiou : get_iou inst.bbox locBbox < opts.iouThreshold
  · simp [processInstance, hiou] at h
  cases hlk : assocLookup f2r inst.filename with
  | none => simp [processInstance, hiou, hlk] at h
  | some iRow =>
  cases hrw : st.1[iRow]? with
  | none => simp [processInstance, hiou, hlk, hrw] at h
  | some row =>
  cases hdd : row.detections[inst.iDetection]? with
  | none => simp [processInstance, hiou, hlk, hrw, hdd] at h
  | some d =>
  by_cases htk : inst.bbox.take 3 ≠ d.bbox.take 3
  · simp [processInstance, hiou, hlk, hrw, hdd, htk] at h
  have heq : inst.bbox.take 3 = d.bbox.take 3 := not_ne_iff.mp htk
  by_cases hcf : 0 ≤ d.conf
  · have hst : st' = (listModify st.1 iRow
        (fun r => { r with detections := listModify r.detections inst.iDetection (fun dd => { dd with conf := -1 * dd.conf }) }),
        st.2 + 1) := by
      symm
      simpa [processInstance, hiou, hlk, hrw, hdd, heq, hcf] using h
    subst hst
    intro i j c hc
    by_cases hi : i = iRow
    · subst hi
      by_cases hj : j = inst.iDetection
      · subst hj
        have hcd : d.conf = c := by
          simpa [confAt, hrw, hdd] using hc
        have h1 := listModify_get_same st.1 i
          (fun r => { r with detections := listModify r.detections inst.iDetection (fun dd => { dd with conf := -1 * dd.conf }) })
          row hrw
        have h2 := listModify_get_same row.detections inst.iDetection
          (fun dd => { dd with conf := -1 * dd.conf }) d hdd
        simp only [neg_one_mul] at h1 h2
        refine ⟨-1 * d.conf, ?_, ?_⟩
        · simp only [neg_one_mul, confAt, h1, Option.bind_some]
          simp [h2]
        · rw [← hcd]
          exact ⟨fun hlt => absurd hlt (not_lt.mpr hcf),
            Or.inr ⟨hcf, by rw [neg_one_mul]⟩⟩
      · have h1 := listModify_get_same st.1 i
          (fun r => { r with detections := listModify r.detections inst.iDetection (fun dd => { dd with conf := -1 * dd.conf }) })
          row hrw
        simp only [neg_one_mul] at h1
        refine ⟨c, ?_, ConfStep_refl c⟩
        have hother := listModify_get_other row.detections inst.iDetection j
          (fun dd => { dd with conf := -1 * dd.conf }) hj
        simp only [neg_one_mul] at hother
        simp only [neg_one_mul, confAt, h1]
        simp [hother]
        simpa [confAt, hrw] using hc
    · refine ⟨c, ?_, ConfStep_refl c⟩
      simp only [confAt] at hc ⊢
      rw [listModify_get_other st.1 iRow i _ hi]
      exact hc
  · have hst : st' = st := by
      symm
      simpa [processInstance, hiou, hlk, hrw, hdd, heq, hcf] using h
    rw [hst]
    exact TableStep_refl st.1

/-- C3: pass 1 of the table update negates a confidence only when it is still
non-negative; an already-negative confidence is left unchanged, every change
is the negation of a non-negative value, and a non-positive confidence can
never become positive (suppression is idempotent). -/
theorem claim_C3_suppression_idempotent (opts : RepeatDetectionOptions)
    (f2r : List (String × Nat)) (susp : List (List DetectionLocation))
    (table table' : List DetectionRow) (n : Nat)
    (h : suppressionPass1 opts f2r susp table = .ok (table', n))
    (i j : Nat) (c : ℚ) (hc : confAt table i j = some c) :
    ∃ c', confAt table' i j = some c' ∧
      (c < 0 → c' = c) ∧ (c' = c ∨ (0 ≤ c ∧ c' = -c)) ∧ (c ≤ 0 → c' ≤ 0) := by
  have hts : TableStep table table' := by
    have h' : foldE (processInstance opts f2r) (table, 0) (candidateInstancePairs susp) =
        .ok (table', n) := h
    exact foldE_rel (fun s s' : List DetectionRow × Nat => TableStep s.1 s'.1)
      (fun s => TableStep_refl s.1) (fun _ _ _ h1 h2 => TableStep_trans h1 h2)
      (processInstance opts f2r) (candidateInstancePairs susp)
      (fun s p s' _ hp => processInstance_tableStep opts f2r s s' p hp)
      (table, 0) (table', n) h'
  obtain ⟨c', hc', hs1, hs2⟩ := hts i j c hc
  refine ⟨c', hc', hs1, hs2, ?_⟩
  intro hle
  rcases hs2 with he | ⟨hge, he⟩
  · exact he ▸ hle
  · rw [he]
    linarith

/-- Concrete inputs for the C3 witness: a detection already suppressed. -/
def c3Bbox : List ℚ := [0, 0, 1, 1]

/-- The already-negated table row for the C3 witness. -/
def c3Row : DetectionRow := ⟨"A/x.jpg", 1/2, [⟨"1", -(1/2), c3Bbox⟩]⟩

/-- Instance referencing the suppressed detection. -/
def c3Inst : IndexedDetection := ⟨0, "A/x.jpg", c3Bbox, 1/2, "1"⟩

/-- A suspicious candidate containing the suppressed instance. -/
def c3Cand : DetectionLocation := ⟨[c3Inst], c3Bbox, "A", ""⟩

theorem c3_pass1_concrete :
    suppressionPass1 {} [("A/x.jpg", 0)] [[c3Cand]] [c3Row] = .ok ([c3Row], 0) := by
  have hG : ¬ (get_iou c3Bbox c3Bbox < (9:ℚ)/10) := by norm_num [get_iou, c3Bbox]
  have hC : ¬ ((0:ℚ) ≤ -(1/2)) := by norm_num
  have hC2 : ¬ ((2:ℚ) ≤ 0) := by norm_num
  simp [suppressionPass1, foldE, candidateInstancePairs, processInstance, assocLookup,
    c3Cand, c3Inst, c3Row, hG, hC, hC2]

/-- Witness for C3 on a one-row table whose only detection was already
negated: it is left unchanged and stays non-positive. -/
theorem claim_C3_suppression_idempotent_witness :
    ∃ c', confAt [c3Row] 0 0 = some c' ∧
      ((-(1/2) : ℚ) < 0 → c' = -(1/2)) ∧
      (c' = -(1/2) ∨ (0 ≤ (-(1/2) : ℚ) ∧ c' = -(-(1/2)))) ∧
      ((-(1/2) : ℚ) ≤ 0 → c' ≤ 0) :=
  claim_C3_suppression_idempotent {} [("A/x.jpg", 0)] [[c3Cand]] [c3Row] [c3Row] 0
    c3_pass1_concrete 0 0 (-(1/2)) (by simp [confAt, c3Row])

/-! ### Claim C4: maximum-confidence monotonicity in pass 2 -/

/-- The fields of a row that pass 1 never modifies. -/
def rowShape (r : DetectionRow) : String × ℚ × Nat :=
  (r.file, r.max_detection_conf, r.detections.length)

/-- One pass-1 step preserves every row's file, cached maximum and detection
count. -/
theorem processInstance_shape (opts : RepeatDetectionOptions)
    (f2r : List (String × Nat)) (st st' : List DetectionRow × Nat)
    (p : List ℚ × IndexedDetection)
    (h : processInstance opts f2r st p = .ok st') :
    ∀ i : Nat, st'.1[i]?.map rowShape = st.1[i]?.map rowShape := by
  obtain ⟨locBbox, inst⟩ := p
  by_cases hiou : get_iou inst.bbox locBbox < opts.iouThreshold
  · simp [processInstance, hiou] at h
  cases hlk : assocLookup f2r inst.filename with
  | none => simp [processInstance, hiou, hlk] at h
  | some iRow =>
  cases hrw : st.1[iRow]? with
  | none => simp [processInstance, hiou, hlk, hrw] at h
  | some row =>
  cases hdd : row.detections[inst.iDetection]? with
  | none => simp [processInstance, hiou, hlk, hrw, hdd] at h
  | some d =>
  by_cases htk : inst.bbox.take 3 ≠ d.bbox.take 3
  · simp [processInstance, hiou, hlk, hrw, hdd, htk] at h
  have heq : inst.bbox.take 3 = d.bbox.take 3 := not_ne_iff.mp htk
  by_cases hcf : 0 ≤ d.conf
  · have hst : st' = (listModify st.1 iRow
        (fun r => { r with detections := listModify r.detections inst.iDetection (fun dd => { dd with conf := -1 * dd.conf }) }),
        st.2 + 1) := by
      symm
      simpa [processInstance, hiou, hlk, hrw, hdd, heq, hcf] using h
    subst hst
    intro i
    by_cases hi : i = iRow
    · subst hi
      have h1 := listModify_get_same st.1 i
        (fun r => { r with detections := listModify r.detections inst.iDetection (fun dd => { dd with conf := -1 * dd.conf }) })
        row hrw
      simp only [neg_one_mul] at h1
      simp only [neg_one_mul, h1, hrw, Option.map_some]
      simp [rowShape, listModify_length]
    · simp only []
      rw [listModify_get_other st.1 iRow i _ hi]
  · have hst : st' = st := by
      symm
      simpa [processInstance, hiou, hlk, hrw, hdd, heq, hcf] using h
    rw [hst]
    intro i
    rfl

/-- Pass 1 as a whole preserves every row's file, cached maximum and
detection count. -/
theorem pass1_shape (opts : RepeatDetectionOptions) (f2r : List (String × Nat))
    (susp : List (List DetectionLocation)) (table t1 : List DetectionRow) (n : Nat)
    (h : suppressionPass1 opts f2r susp table = .ok (t1, n)) :
    ∀ i : Nat, t1[i]?.map rowShape = table[i]?.map rowShape := by
  have h' : foldE (processInstance opts f2r) (table, 0) (candidateInstancePairs susp) =
      .ok (t1, n) := h
  exact foldE_rel
    (fun s s' : List DetectionRow × Nat =>
      ∀ i : Nat, s'.1[i]?.map rowShape = s.1[i]?.map rowShape)
    (fun _ _ => rfl) (fun _ _ _ h1 h2 i => (h2 i).trans (h1 i))
    (processInstance opts f2r) (candidateInstancePairs susp)
    (fun s p s' _ hp => processInstance_shape opts f2r s s' p hp)
    (table, 0) (t1, n) h'

/-- The pass-2 maximum fold over a nonempty detection list yields a value. -/
theorem maxConf_isSome (dets : List Detection) (h : dets ≠ []) :
    ∃ m nneg, maxConfAndNegCount dets = (some m, nneg) := by
  have key : ∀ (l : List Detection) (m0 : ℚ) (n0 : Nat),
      ∃ m n, l.foldl maxConfStep (some m0, n0) = (some m, n) := by
    intro l
    induction l with
    | nil => intro m0 n0; exact ⟨m0, n0, rfl⟩
    | cons d rest ih =>
      intro m0 n0
      simp only [List.foldl_cons]
      by_cases hgt : d.conf > m0
      · simpa [maxConfStep, hgt] using ih _ _
      · simpa [maxConfStep, hgt] using ih _ _
  cases dets with
  | nil => exact absurd rfl h
  | cons d rest =>
    unfold maxConfAndNegCount
    simp only [List.foldl_cons]
    have hstep : maxConfStep ((none, 0) : Option ℚ × Nat) d =
        (some d.conf, if d.conf < 0 then 1 else 0) := by
      simp [maxConfStep]
    rw [hstep]
    exact key rest d.conf (if d.conf < 0 then 1 else 0)

/-- Case analysis of a successful `pass2Row` on a nonempty row: the
detections are unchanged, the cached maximum never increases, and when the
recomputed maximum moved by more than the tolerance it strictly decreased
and was written back. -/
theorem pass2Row_ok_props (opts : RepeatDetectionOptions) (row : DetectionRow)
    (r' : DetectionRow) (fl : Bool × Bool × Bool)
    (h : pass2Row opts row = .ok (r', fl)) (hne : row.detections ≠ []) :
    ∃ m nneg, maxConfAndNegCount row.detections = (some m, nneg) ∧
      r'.detections = row.detections ∧ r'.file = row.file ∧
      r'.max_detection_conf ≤ row.max_detection_conf ∧
      (|m - row.max_detection_conf| > 1 / 100000000 →
        m < row.max_detection_conf ∧ r'.max_detection_conf = m) := by
  obtain ⟨m, nneg, hmc⟩ := maxConf_isSome row.detections hne
  refine ⟨m, nneg, hmc, ?_⟩
  have hlen : ¬ row.detections.length = 0 := by
    simpa [List.length_eq_zero] using hne
  have hconv : (|m - row.max_detection_conf| > 1 / 100000000) ↔
      ((100000000:ℚ)⁻¹ < |m - row.max_detection_conf|) := by
    rw [gt_iff_lt, one_div]
  by_cases hneg : row.max_detection_conf < 0
  · simp [pass2Row, hlen, hneg] at h
  by_cases htol : (100000000:ℚ)⁻¹ < |m - row.max_detection_conf|
  · by_cases hlt : m < row.max_detection_conf
    · by_cases hnn : nneg = 0
      · simp [pass2Row, hlen, hneg, hmc, htol, hlt, hnn] at h
      · have hr' : r' = { row with max_detection_conf := m } := by
          have hh := h
          simp [pass2Row, hlen, hneg, hmc, htol, hlt, hnn] at hh
          exact hh.1.symm
        subst hr'
        refine ⟨rfl, rfl, le_of_lt hlt, fun _ => ⟨hlt, rfl⟩⟩
    · simp [pass2Row, hlen, hneg, hmc, htol, hlt] at h
  · have hr' : r' = row := by
      have hh := h
      simp [pass2Row, hlen, hneg, hmc, htol] at hh
      exact hh.1.symm
    subst hr'
    exact ⟨rfl, rfl, le_refl _, fun hc => absurd (hconv.mp hc) htol⟩

/-- A successful pass-2 fold extends the accumulator by one processed row per
input row, pointwise. -/
theorem pass2_fold_ok (opts : RepeatDetectionOptions) :
    ∀ (t : List DetectionRow) (acc : List DetectionRow) (cnt : Pass2Counters)
      (out : List DetectionRow) (cnt' : Pass2Counters),
      foldE (pass2Step opts) (acc, cnt) t = .ok (out, cnt') →
      ∃ processed : List DetectionRow, out = acc ++ processed ∧
        processed.length = t.length ∧
        ∀ (i : Nat) (row : DetectionRow), t[i]? = some row →
          ∃ r' fl, pass2Row opts row = .ok (r', fl) ∧ processed[i]? = some r' := by
  intro t
  induction t with
  | nil =>
    intro acc cnt out cnt' hf
    simp only [foldE] at hf
    cases hf
    exact ⟨[], by simp, rfl, by intro i row h; simp at h⟩
  | cons row rest ih =>
    intro acc cnt out cnt' hf
    simp only [foldE] at hf
    cases hs : pass2Step opts (acc, cnt) row with
    | error e =>
      rw [hs] at hf
      exact absurd hf (by simp)
    | ok s1 =>
      rw [hs] at hf
      obtain ⟨acc1, cnt1⟩ := s1
      cases hpr : pass2Row opts row with
      | error e => simp [pass2Step, hpr] at hs
      | ok tpl =>
        obtain ⟨r', ch, neg, acr⟩ := tpl
        have hacc1 : acc1 = acc ++ [r'] := by
          simp [pass2Step, hpr] at hs
          exact hs.1.symm
        subst hacc1
        obtain ⟨processed', hout, hlen, hpt⟩ := ih (acc ++ [r']) cnt1 out cnt' hf
        refine ⟨r' :: processed', ?_, ?_, ?_⟩
        · rw [hout]
          simp
        · simp [hlen]
        · intro i rowq hq
          cases i with
          | zero =>
            simp at hq
            subst hq
            exact ⟨r', (ch, neg, acr), hpr, by simp⟩
          | succ i' =>
            simp only [List.getElem?_cons_succ] at hq ⊢
            exact hpt i' rowq hq

/-- If some row of the table fails `pass2Row`, pass 2 as a whole aborts. -/
theorem pass2_fold_error (opts : RepeatDetectionOptions) :
    ∀ (t : List DetectionRow) (acc : List DetectionRow) (cnt : Pass2Counters),
      (∃ row ∈ t, ∃ e, pass2Row opts row = .error e) →
      ∃ msg, foldE (pass2Step opts) (acc, cnt) t = .error msg := by
  intro t
  induction t with
  | nil =>
    intro acc cnt h
    obtain ⟨row, hmem, -⟩ := h
    exact absurd hmem (List.not_mem_nil row)
  | cons a rest ih =>
    intro acc cnt h
    obtain ⟨row, hmem, e, he⟩ := h
    rcases List.mem_cons.mp hmem with rfl | hmem'
    · refine ⟨e, ?_⟩
      simp only [foldE]
      have hstep : pass2Step opts (acc, cnt) row = .error e := by
        simp [pass2Step, he]
      rw [hstep]
    · cases hs : pass2Step opts (acc, cnt) a with
      | error e' =>
        refine ⟨e', ?_⟩
        simp only [foldE]
        rw [hs]
      | ok s1 =>
        obtain ⟨msg, hmsg⟩ := ih s1.1 s1.2 ⟨row, hmem', e, he⟩
        refine ⟨msg, ?_⟩
        simp only [foldE]
        rw [hs]
        simpa using hmsg

/-- A violating row (recomputed maximum moved by more than the tolerance but
did not decrease) makes `pass2Row` abort. -/
theorem pass2Row_violation_error (opts : RepeatDetectionOptions) (row : DetectionRow)
    (m : ℚ) (nneg : Nat) (hne : row.detections ≠ [])
    (hmc : maxConfAndNegCount row.detections = (some m, nneg))
    (htol : |m - row.max_detection_conf| > 1 / 100000000)
    (hnotlt : ¬ m < row.max_detection_conf) :
    ∃ e, pass2Row opts row = .error e := by
  have hlen : ¬ row.detections.length = 0 := by
    simpa [List.length_eq_zero] using hne
  have htol' : (100000000:ℚ)⁻¹ < |m - row.max_detection_conf| := by
    rw [← one_div]
    exact htol
  by_cases hneg : row.max_detection_conf < 0
  · exact ⟨"assertion failed: maxPOriginal >= 0", by simp [pass2Row, hlen, hneg]⟩
  · exact ⟨"assertion failed: maxP < maxPOriginal",
      by simp [pass2Row, hlen, hneg, hmc, htol', hnotlt]⟩

/-- C4: after suppression, every nonempty row's cached maximum confidence is
at most its pre-suppression value; whenever the recomputed maximum differs
from the cached value by more than 1e-8 it is strictly smaller; and a
recomputed maximum that moved by more than the tolerance without being
smaller aborts the run. -/
theorem claim_C4_max_conf_monotone (opts : RepeatDetectionOptions) :
    (∀ (f2r : List (String × Nat)) (susp : List (List DetectionLocation))
        (table t1 out : List DetectionRow) (n : Nat) (cnt : Pass2Counters),
      suppressionPass1 opts f2r susp table = .ok (t1, n) →
      suppressionPass2 opts t1 = .ok (out, cnt) →
      ∀ (i : Nat) (row : DetectionRow), table[i]? = some row → row.detections ≠ [] →
        ∃ (row' midrow : DetectionRow) (m : ℚ) (nneg : Nat),
          out[i]? = some row' ∧ t1[i]? = some midrow ∧
          midrow.max_detection_conf = row.max_detection_conf ∧
          maxConfAndNegCount midrow.detections = (some m, nneg) ∧
          row'.max_detection_conf ≤ row.max_detection_conf ∧
          (|m - row.max_detection_conf| > 1 / 100000000 → m < row.max_detection_conf)) ∧
    (∀ (t : List DetectionRow) (i : Nat) (row : DetectionRow) (m : ℚ) (nneg : Nat),
      t[i]? = some row → row.detections ≠ [] →
      maxConfAndNegCount row.detections = (some m, nneg) →
      |m - row.max_detection_conf| > 1 / 100000000 → ¬ m < row.max_detection_conf →
      ∃ msg, suppressionPass2 opts t = .error msg) := by
  constructor
  · intro f2r susp table t1 out n cnt h1 h2 i row hrow hne
    have hshape := pass1_shape opts f2r susp table t1 n h1 i
    rw [hrow] at hshape
    cases hmid : t1[i]? with
    | none =>
      rw [hmid] at hshape
      exact absurd hshape (by simp)
    | some midrow =>
      rw [hmid] at hshape
      simp only [Option.map_some', Option.some.injEq] at hshape
      have hfile : midrow.file = row.file := congrArg Prod.fst hshape
      have hmax : midrow.max_detection_conf = row.max_detection_conf := by
        have := congrArg (fun p => p.2.1) hshape
        simpa using this
      have hdlen : midrow.detections.length = row.detections.length := by
        have := congrArg (fun p => p.2.2) hshape
        simpa [rowShape] using this
      have hmne : midrow.detections ≠ [] := by
        intro hnil
        rw [hnil] at hdlen
        exact hne (List.length_eq_zero.mp hdlen.symm)
      have h2' : foldE (pass2Step opts) ([], ⟨0, 0, 0⟩) t1 = .ok (out, cnt) := h2
      obtain ⟨processed, hout, hplen, hpt⟩ := pass2_fold_ok opts t1 [] ⟨0, 0, 0⟩ out cnt h2'
      obtain ⟨r', fl, hpr, hpi⟩ := hpt i midrow hmid
      obtain ⟨m, nneg, hmc, hdets, hfile', hle, himp⟩ :=
        pass2Row_ok_props opts midrow r' fl hpr hmne
      refine ⟨r', midrow, m, nneg, ?_, rfl, hmax, hmc, ?_, ?_⟩
      · rw [hout]
        simpa using hpi
      · rw [← hmax]
        exact hle
      · intro htol
        rw [← hmax] at htol
        exact hmax ▸ (himp htol).1
  · intro t i row m nneg hrow hne hmc htol hnlt
    have hmem : row ∈ t := List.getElem?_mem hrow
    obtain ⟨e, he⟩ := pass2Row_violation_error opts row m nneg hne hmc htol hnlt
    obtain ⟨msg, hmsg⟩ := pass2_fold_error opts t [] ⟨0, 0, 0⟩ ⟨row, hmem, e, he⟩
    exact ⟨msg, hmsg⟩

theorem c4_pass2_concrete :
    suppressionPass2 {} [c3Row] =
      .ok ([⟨"A/x.jpg", -(1/2), [⟨"1", -(1/2), c3Bbox⟩]⟩], ⟨1, 1, 0⟩) := by
  have hA : (-(1/2) : ℚ) < 0 := by norm_num
  have hA2 : ¬ ((1:ℚ)/2 < 0) := by norm_num
  have hB : (100000000:ℚ)⁻¹ < |(-(1/2) : ℚ) - 1/2| := by
    rw [abs_of_nonpos (by norm_num)]
    norm_num
  have hC : (-(1/2) : ℚ) < 1/2 := by norm_num
  have hD : ¬ ((849:ℚ)/1000 ≤ 1/2) := by norm_num
  have hA2i : ¬ ((2:ℚ) < 0) := by norm_num
  have hBi : (100000000:ℚ)⁻¹ < |(-(2⁻¹) : ℚ) - 2⁻¹| := by
    rw [abs_of_nonpos (by norm_num)]
    norm_num
  have hDi : ¬ ((849:ℚ)/1000 ≤ 2⁻¹) := by norm_num
  simp [suppressionPass2, foldE, pass2Step, pass2Row, maxConfAndNegCount, maxConfStep,
    c3Row, hA, hA2, hB, hC, hD, hA2i, hBi, hDi]

/-- A row whose cached maximum (0) is smaller than its recomputed maximum
(1/2): the pass-2 integrity assertion must fire on it. -/
def c4BadRow : DetectionRow := ⟨"x.jpg", 0, [⟨"1", 1/2, []⟩]⟩

/-- Witness for C4: on a one-row table the cached maximum decreases from 1/2
to -1/2 after suppression, and on a table whose cached maximum increased the
run aborts. -/
theorem claim_C4_max_conf_monotone_witness :
    (∃ (row' midrow : DetectionRow) (m : ℚ) (nneg : Nat),
      ([⟨"A/x.jpg", -(1/2), [⟨"1", -(1/2), c3Bbox⟩]⟩] : List DetectionRow)[0]? = some row' ∧
      ([c3Row] : List DetectionRow)[0]? = some midrow ∧
      midrow.max_detection_conf = c3Row.max_detection_conf ∧
      maxConfAndNegCount midrow.detections = (some m, nneg) ∧
      row'.max_detection_conf ≤ c3Row.max_detection_conf ∧
      (|m - c3Row.max_detection_conf| > 1 / 100000000 →
        m < c3Row.max_detection_conf)) ∧
    (∃ msg, suppressionPass2 {} [c4BadRow] = .error msg) :=
  ⟨(claim_C4_max_conf_monotone {}).1 [] [] [c3Row] [c3Row]
      [⟨"A/x.jpg", -(1/2), [⟨"1", -(1/2), c3Bbox⟩]⟩] 0 ⟨1, 1, 0⟩ rfl c4_pass2_concrete
      0 c3Row rfl (by simp [c3Row]),
   (claim_C4_max_conf_monotone {}).2 [c4BadRow] 0 c4BadRow (1/2) 0 rfl
      (by simp [c4BadRow])
      (by simp [c4BadRow, maxConfAndNegCount, maxConfStep])
      (by simp [c4BadRow]; rw [abs_of_nonneg (by norm_num)]; norm_num)
      (by simp [c4BadRow])⟩

/-! ### Claim C9: directory partitioner -/

/-- Lookup after `assocAppend`: the appended key's bucket grows by the value,
every other key is untouched. -/
theorem assocAppend_lookup {α : Type} (l : List (String × List α)) (k k' : String) (v : α) :
    assocLookup (assocAppend l k v) k' =
      if k' = k then some ((assocLookup l k).getD [] ++ [v]) else assocLookup l k' := by
  induction l with
  | nil =>
    by_cases h : k' = k
    · simp [assocAppend, assocLookup, h]
    · simp [assocAppend, assocLookup, h, Ne.symm h]
  | cons p rest ih =>
    by_cases hpk : p.1 = k
    · by_cases h : k' = k
      · simp [assocAppend, assocLookup, hpk, h]
      · simp [assocAppend, assocLookup, hpk, h, Ne.symm h]
    · by_cases hpk' : p.1 = k'
      · have hk : ¬ k' = k := fun he => hpk (hpk'.trans he)
        simp [assocAppend, assocLookup, hpk, hpk', hk]
      · simp [assocAppend, assocLookup, hpk, hpk', ih]

/-- `assocAppend` adds the key at the end when new, otherwise keeps the key
list unchanged. -/
theorem assocAppend_keys {α : Type} (l : List (String × List α)) (k : String) (v : α) :
    (assocAppend l k v).map Prod.fst =
      if (assocLookup l k).isSome then l.map Prod.fst else l.map Prod.fst ++ [k] := by
  induction l with
  | nil => simp [assocAppend, assocLookup]
  | cons p rest ih =>
    by_cases hpk : p.1 = k
    · simp [assocAppend, assocLookup, hpk]
    · simp only [assocAppend, if_neg hpk, List.map_cons, assocLookup, ih]
      by_cases hs : (assocLookup rest k).isSome
      · simp [hs, hpk]
      · simp [hs, hpk]

/-- A key is present in an association list iff lookup succeeds. -/
theorem assocLookup_isSome_iff {α : Type} (l : List (String × α)) (k : String) :
    (assocLookup l k).isSome ↔ k ∈ l.map Prod.fst := by
  induction l with
  | nil => simp [assocLookup]
  | cons p rest ih =>
    by_cases hpk : p.1 = k
    · simp [assocLookup, hpk]
    · simp [assocLookup, hpk, ih, Ne.symm hpk]

/-- Lookup through an appended association list: the left part wins. -/
theorem assocLookup_append {α : Type} (l1 l2 : List (String × α)) (k : String) :
    assocLookup (l1 ++ l2) k =
      match assocLookup l1 k with
      | some v => some v
      | none => assocLookup l2 k := by
  induction l1 with
  | nil => simp [assocLookup]
  | cons p rest ih =>
    by_cases hpk : p.1 = k
    · simp [assocLookup, hpk]
    · simp [assocLookup, hpk, ih]

/-- A successful separation appends `(file, index)` pairs for every row, in
order, to the filename index. -/
theorem separateAux_f2r (n : Nat) :
    ∀ (rows : List DetectionRow) (iRow : Nat) (rbd : List (String × List DetectionRow))
      (f2r : List (String × Nat)) (rbd' : List (String × List DetectionRow))
      (f2r' : List (String × Nat)),
      separateAux n rows iRow rbd f2r = .ok (rbd', f2r') →
      f2r' = f2r ++ (enumFromNat iRow rows).map (fun p => (p.2.file, p.1)) := by
  intro rows
  induction rows with
  | nil =>
    intro iRow rbd f2r rbd' f2r' h
    simp only [separateAux] at h
    cases h
    simp [enumFromNat]
  | cons row rest ih =>
    intro iRow rbd f2r rbd' f2r' h
    by_cases hk : directoryKey n row.file = ""
    · simp [separateAux, hk] at h
    by_cases hdup : (assocLookup f2r row.file).isSome
    · simp [separateAux, hk, hdup] at h
    have h' : separateAux n rest (iRow + 1) (assocAppend rbd (directoryKey n row.file) row)
        (f2r ++ [(row.file, iRow)]) = .ok (rbd', f2r') := by
      simpa [separateAux, hk, hdup] using h
    rw [ih (iRow + 1) _ _ rbd' f2r' h']
    simp [enumFromNat]

/-- Group characterization of a successful separation: each key's bucket in
the output extends its input bucket by exactly the rows whose directory key
matches, in table order. -/
theorem separateAux_groups (n : Nat) :
    ∀ (rows : List DetectionRow) (iRow : Nat) (rbd : List (String × List DetectionRow))
      (f2r : List (String × Nat)) (rbd' : List (String × List DetectionRow))
      (f2r' : List (String × Nat)) (k : String),
      separateAux n rows iRow rbd f2r = .ok (rbd', f2r') →
      assocLookup rbd' k =
        if (assocLookup rbd k) = none ∧
            rows.filter (fun r => directoryKey n r.file == k) = [] then none
        else some ((assocLookup rbd k).getD [] ++
          rows.filter (fun r => directoryKey n r.file == k)) := by
  intro rows
  induction rows with
  | nil =>
    intro iRow rbd f2r rbd' f2r' k h
    simp only [separateAux] at h
    cases h
    cases hl : assocLookup rbd k with
    | none => simp [hl]
    | some g => simp [hl]
  | cons row rest ih =>
    intro iRow rbd f2r rbd' f2r' k h
    by_cases hk : directoryKey n row.file = ""
    · simp [separateAux, hk] at h
    by_cases hdup : (assocLookup f2r row.file).isSome
    · simp [separateAux, hk, hdup] at h
    have h' : separateAux n rest (iRow + 1) (assocAppend rbd (directoryKey n row.file) row)
        (f2r ++ [(row.file, iRow)]) = .ok (rbd', f2r') := by
      simpa [separateAux, hk, hdup] using h
    have hih := ih (iRow + 1) _ _ rbd' f2r' k h'
    rw [assocAppend_lookup] at hih
    by_cases hdk : directoryKey n row.file = k
    · subst hdk
      rw [hih]
      cases hl : assocLookup rbd (directoryKey n row.file) with
      | none => simp [hl, List.filter_cons]
      | some g => simp [hl, List.filter_cons]
    · have hkk : ¬ k = directoryKey n row.file := fun he => hdk he.symm
      rw [hih]
      simp [List.filter_cons, hkk, hdk]

/-- Successful separation keeps the directory key list duplicate-free. -/
theorem separateAux_keys_nodup (n : Nat) :
    ∀ (rows : List DetectionRow) (iRow : Nat) (rbd : List (String × List DetectionRow))
      (f2r : List (String × Nat)) (rbd' : List (String × List DetectionRow))
      (f2r' : List (String × Nat)),
      separateAux n rows iRow rbd f2r = .ok (rbd', f2r') →
      (rbd.map Prod.fst).Nodup → (rbd'.map Prod.fst).Nodup := by
  intro rows
  induction rows with
  | nil =>
    intro iRow rbd f2r rbd' f2r' h hnd
    simp only [separateAux] at h
    cases h
    exact hnd
  | cons row rest ih =>
    intro iRow rbd f2r rbd' f2r' h hnd
    by_cases hk : directoryKey n row.file = ""
    · simp [separateAux, hk] at h
    by_cases hdup : (assocLookup f2r row.file).isSome
    · simp [separateAux, hk, hdup] at h
    have h' : separateAux n rest (iRow + 1) (assocAppend rbd (directoryKey n row.file) row)
        (f2r ++ [(row.file, iRow)]) = .ok (rbd', f2r') := by
      simpa [separateAux, hk, hdup] using h
    refine ih (iRow + 1) _ _ rbd' f2r' h' ?_
    rw [assocAppend_keys]
    by_cases hs : (assocLookup rbd (directoryKey n row.file)).isSome
    · simpa [hs] using hnd
    · have hnotin : directoryKey n row.file ∉ rbd.map Prod.fst := by
        rw [← assocLookup_isSome_iff]
        simpa using hs
      simp [hs, List.nodup_append, hnd, hnotin]

/-- A successful separation implies every directory key was nonempty, every
file was fresh with respect to the incoming index, and the paths are
duplicate-free. -/
theorem separateAux_ok_good (n : Nat) :
    ∀ (rows : List DetectionRow) (iRow : Nat) (rbd : List (String × List DetectionRow))
      (f2r : List (String × Nat)) (rbd' : List (String × List DetectionRow))
      (f2r' : List (String × Nat)),
      separateAux n rows iRow rbd f2r = .ok (rbd', f2r') →
      (∀ r ∈ rows, directoryKey n r.file ≠ "" ∧ assocLookup f2r r.file = none) ∧
      (rows.map (fun r => r.file)).Nodup := by
  intro rows
  induction rows with
  | nil =>
    intro iRow rbd f2r rbd' f2r' _
    exact ⟨by simp, by simp⟩
  | cons row rest ih =>
    intro iRow rbd f2r rbd' f2r' h
    by_cases hk : directoryKey n row.file = ""
    · simp [separateAux, hk] at h
    by_cases hdup : (assocLookup f2r row.file).isSome
    · simp [separateAux, hk, hdup] at h
    have h' : separateAux n rest (iRow + 1) (assocAppend rbd (directoryKey n row.file) row)
        (f2r ++ [(row.file, iRow)]) = .ok (rbd', f2r') := by
      simpa [separateAux, hk, hdup] using h
    obtain ⟨hfresh, hnd⟩ := ih (iRow + 1) _ _ rbd' f2r' h'
    have hlkN : assocLookup f2r row.file = none := by
      cases hl : assocLookup f2r row.file with
      | none => rfl
      | some v => rw [hl] at hdup; simp at hdup
    have hnotin : row.file ∉ rest.map (fun r => r.file) := by
      intro hmem
      obtain ⟨r, hr, hfe⟩ := List.mem_map.mp hmem
      have := (hfresh r hr).2
      rw [assocLookup_append] at this
      rw [hfe] at this
      rw [hlkN] at this
      simp [assocLookup] at this
    constructor
    · intro r hr
      rcases List.mem_cons.mp hr with rfl | hr'
      · exact ⟨hk, hlkN⟩
      · refine ⟨(hfresh r hr').1, ?_⟩
        have := (hfresh r hr').2
        rw [assocLookup_append] at this
        cases hl : assocLookup f2r r.file with
        | none => rfl
        | some v => rw [hl] at this; simp at this
    · simp [List.nodup_cons, hnotin, hnd]

/-- Goodness implies the separation loop succeeds. -/
theorem separateAux_ok_of_good (n : Nat) :
    ∀ (rows : List DetectionRow) (iRow : Nat) (rbd : List (String × List DetectionRow))
      (f2r : List (String × Nat)),
      (∀ r ∈ rows, directoryKey n r.file ≠ "") →
      (rows.map (fun r => r.file)).Nodup →
      (∀ r ∈ rows, assocLookup f2r r.file = none) →
      ∃ rbd' f2r', separateAux n rows iRow rbd f2r = .ok (rbd', f2r') := by
  intro rows
  induction rows with
  | nil =>
    intro iRow rbd f2r _ _ _
    exact ⟨rbd, f2r, rfl⟩
  | cons row rest ih =>
    intro iRow rbd f2r hkeys hnd hfresh
    have hk : directoryKey n row.file ≠ "" := hkeys row (List.mem_cons_self row rest)
    have hlkN : assocLookup f2r row.file = none := hfresh row (List.mem_cons_self row rest)
    have hnd2 : row.file ∉ rest.map (fun r => r.file) ∧
        (rest.map (fun r => r.file)).Nodup := by
      have hx := hnd
      simp only [List.map_cons, List.nodup_cons] at hx
      exact hx
    have hnotin : row.file ∉ rest.map (fun r => r.file) := hnd2.1
    have hfresh' : ∀ r ∈ rest, assocLookup (f2r ++ [(row.file, iRow)]) r.file = none := by
      intro r hr
      rw [assocLookup_append]
      rw [hfresh r (List.mem_cons_of_mem row hr)]
      have hne : ¬ row.file = r.file := by
        intro he
        exact hnotin (List.mem_map.mpr ⟨r, hr, he.symm⟩)
      simp [assocLookup, hne]
    obtain ⟨rbd', f2r', hrec⟩ := ih (iRow + 1) (assocAppend rbd (directoryKey n row.file) row)
      (f2r ++ [(row.file, iRow)]) (fun r hr => hkeys r (List.mem_cons_of_mem row hr))
      hnd2.2 hfresh'
    refine ⟨rbd', f2r', ?_⟩
    simp [separateAux, hk, hlkN, hrec]

/-- Reading the filename index backwards: a successful lookup points at a row
bearing that file name. -/
theorem enumMap_lookup_sound (rows : List DetectionRow) :
    ∀ (i : Nat) (fname : String) (j : Nat),
      assocLookup ((enumFromNat i rows).map (fun p => (p.2.file, p.1))) fname = some j →
      ∃ (m : Nat) (r : DetectionRow), rows[m]? = some r ∧ r.file = fname ∧ j = i + m := by
  induction rows with
  | nil => intro i fname j h; simp [enumFromNat, assocLookup] at h
  | cons row rest ih =>
    intro i fname j h
    simp only [enumFromNat, List.map_cons, assocLookup] at h
    by_cases hf : row.file = fname
    · rw [if_pos hf] at h
      cases h
      exact ⟨0, row, by simp, hf, by simp⟩
    · rw [if_neg hf] at h
      obtain ⟨m, r, hget, hfile, hj⟩ := ih (i + 1) fname j h
      exact ⟨m + 1, r, by simpa using hget, hfile, by omega⟩

/-- Reading the filename index forwards: under duplicate-free paths, the row
at index `m` is found at index `i + m`. -/
theorem enumMap_lookup_complete (rows : List DetectionRow) :
    ∀ (i m : Nat) (r : DetectionRow),
      (rows.map (fun r => r.file)).Nodup → rows[m]? = some r →
      assocLookup ((enumFromNat i rows).map (fun p => (p.2.file, p.1))) r.file =
        some (i + m) := by
  induction rows with
  | nil => intro i m r _ h; simp at h
  | cons row rest ih =>
    intro i m r hnd hget
    simp only [enumFromNat, List.map_cons, assocLookup]
    cases m with
    | zero =>
      simp at hget
      subst hget
      simp
    | succ m' =>
      simp only [List.getElem?_cons_succ] at hget
      have hnd2 : row.file ∉ rest.map (fun r => r.file) ∧
          (rest.map (fun r => r.file)).Nodup := by
        have hx := hnd
        simp only [List.map_cons, List.nodup_cons] at hx
        exact hx
      have hne : ¬ row.file = r.file := by
        intro he
        have hmem : r.file ∈ rest.map (fun r => r.file) :=
          List.mem_map.mpr ⟨r, List.getElem?_mem hget, rfl⟩
        rw [← he] at hmem
        exact hnd2.1 hmem
      rw [if_neg hne]
      rw [ih (i + 1) m' r hnd2.2 hget]
      congr 1
      omega

/-- C9: the partitioner succeeds exactly when every computed directory key is
nonempty and no file path repeats; on success, the filename index maps each
path to its original row index, every record lands in the group of its
directory key, and each group holds exactly the rows with that key (so each
record belongs to exactly one group); otherwise the run aborts with an
assertion error. -/
theorem claim_C9_partitioner (n : Nat) (rows : List DetectionRow) :
    ((∀ r ∈ rows, directoryKey n r.file ≠ "") ∧ (rows.map (fun r => r.file)).Nodup →
      ∃ rbd f2r, separateByDirectory n rows = .ok (rbd, f2r) ∧
        (∀ (i : Nat) (r : DetectionRow), rows[i]? = some r →
          assocLookup f2r r.file = some i) ∧
        (∀ (i : Nat) (r : DetectionRow), rows[i]? = some r →
          ∃ g, assocLookup rbd (directoryKey n r.file) = some g ∧ r ∈ g) ∧
        (∀ k g, assocLookup rbd k = some g →
          g = rows.filter (fun r => directoryKey n r.file == k) ∧
          ∀ r ∈ g, directoryKey n r.file = k) ∧
        (rbd.map Prod.fst).Nodup) ∧
    ((∃ r ∈ rows, directoryKey n r.file = "") ∨ ¬ (rows.map (fun r => r.file)).Nodup →
      ∃ msg, separateByDirectory n rows = .error msg) := by
  constructor
  · rintro ⟨hkeys, hnd⟩
    obtain ⟨rbd, f2r, hok⟩ := separateAux_ok_of_good n rows 0 [] [] hkeys hnd
      (fun r _ => rfl)
    have hf2r := separateAux_f2r n rows 0 [] [] rbd f2r hok
    simp only [List.nil_append] at hf2r
    refine ⟨rbd, f2r, hok, ?_, ?_, ?_, ?_⟩
    · intro i r hget
      rw [hf2r]
      simpa using enumMap_lookup_complete rows 0 i r hnd hget
    · intro i r hget
      have hg := separateAux_groups n rows 0 [] [] rbd f2r (directoryKey n r.file) hok
      have hmem : r ∈ rows.filter (fun q => directoryKey n q.file == directoryKey n r.file) := by
        refine List.mem_filter.mpr ⟨List.getElem?_mem hget, ?_⟩
        simp
      have hne : rows.filter (fun q => directoryKey n q.file == directoryKey n r.file) ≠ [] :=
        List.ne_nil_of_mem hmem
      rw [hg]
      simp only [assocLookup]
      rw [if_neg (by simp [hne])]
      exact ⟨_, rfl, by simpa using hmem⟩
    · intro k g hgk
      have hg := separateAux_groups n rows 0 [] [] rbd f2r k hok
      rw [hgk] at hg
      by_cases hfe : rows.filter (fun r => directoryKey n r.file == k) = []
      · rw [if_pos (by simp [assocLookup, hfe])] at hg
        cases hg
      · rw [if_neg (by simp [assocLookup, hfe])] at hg
        simp only [assocLookup, Option.getD_none, List.nil_append,
          Option.some.injEq] at hg
        refine ⟨hg, ?_⟩
        intro r hr
        rw [hg] at hr
        have := (List.mem_filter.mp hr).2
        simpa using this
    · exact separateAux_keys_nodup n rows 0 [] [] rbd f2r hok (by simp)
  · intro hbad
    cases hres : separateByDirectory n rows with
    | error e => exact ⟨e, rfl⟩
    | ok p =>
      obtain ⟨rbd, f2r⟩ := p
      obtain ⟨hfresh, hnd⟩ := separateAux_ok_good n rows 0 [] [] rbd f2r hres
      rcases hbad with ⟨r, hr, hke⟩ | hdup
      · exact absurd hke (hfresh r hr).1
      · exact absurd hnd hdup

/-- Concrete rows for the C9 witness. -/
def c9RowA : DetectionRow := ⟨"A/x.jpg", 0, []⟩

/-- A second row in a different directory. -/
def c9RowB : DetectionRow := ⟨"B/y.jpg", 0, []⟩

/-- A row whose directory key is empty. -/
def c9RowBad : DetectionRow := ⟨"x.jpg", 0, []⟩

/-- Witness for C9: a two-row well-formed table separates successfully, and a
table with an empty directory key aborts. -/
theorem claim_C9_partitioner_witness :
    (∃ p, separateByDirectory 0 [c9RowA, c9RowB] = .ok p) ∧
    (∃ msg, separateByDirectory 0 [c9RowBad] = .error msg) :=
  ⟨by
    obtain ⟨rbd, f2r, hok, -⟩ := (claim_C9_partitioner 0 [c9RowA, c9RowB]).1
      (by constructor
          · decide
          · decide)
    exact ⟨(rbd, f2r), hok⟩,
   (claim_C9_partitioner 0 [c9RowBad]).2 (Or.inl ⟨c9RowBad, by decide, by decide⟩)⟩

/-! ### Claim C2: the debugMaxDir -1 slice drops the last directory -/

/-- The python slice `l[0:-1]` drops exactly the last element. -/
theorem pySliceTo_neg_one {α : Type} (l : List α) : pySliceTo l (-1) = l.dropLast := by
  simp only [pySliceTo, if_pos (by norm_num : (-1 : Int) < 0)]
  have h : (((l.length : Int) + -1)).toNat = l.length - 1 := by omega
  rw [h, ← List.dropLast_eq_take]

/-- In a duplicate-free list the last element does not occur before the end. -/
theorem getLast_not_mem_dropLast {α : Type} (l : List α) (hnd : l.Nodup) (h : l ≠ []) :
    l.getLast h ∉ l.dropLast := by
  have hsplit : l.dropLast ++ [l.getLast h] = l := List.dropLast_append_getLast h
  rw [← hsplit] at hnd
  have := List.disjoint_of_nodup_append hnd
  intro hmem
  exact this hmem (by simp)

/-- Provenance invariant for candidates: owned by this directory, with every
instance's file among the given files. -/
def CandOK (d : String) (files : List String) (c : DetectionLocation) : Prop :=
  c.relativeDir = d ∧ ∀ inst ∈ c.instances, inst.filename ∈ files

/-- `matchDetection` preserves the provenance invariant when the new instance
comes from one of the directory's files. -/
theorem matchDetection_candOK (opts : RepeatDetectionOptions) (dirName : String)
    (det : Detection) (inst : IndexedDetection) (cands : List DetectionLocation)
    (files : List String) (hin : inst.filename ∈ files)
    (hall : ∀ c ∈ cands, CandOK dirName files c) :
    ∀ c ∈ matchDetection opts dirName det inst cands, CandOK dirName files c := by
  rw [matchDetection_eq]
  intro c hc
  rcases List.mem_append.mp hc with hmap | hnew
  · obtain ⟨c0, hc0, heq⟩ := List.mem_map.mp hmap
    obtain ⟨hdir, hinsts⟩ := hall c0 hc0
    by_cases hm : opts.iouThreshold ≤ get_iou det.bbox c0.bbox
    · rw [if_pos hm] at heq
      subst heq
      refine ⟨hdir, ?_⟩
      intro q hq
      rcases List.mem_append.mp hq with hq' | hq'
      · exact hinsts q hq'
      · simp at hq'
        subst hq'
        exact hin
    · rw [if_neg hm] at heq
      subst heq
      exact ⟨hdir, hinsts⟩
  · by_cases hb : cands.any (matchesCand opts.iouThreshold det.bbox)
    · rw [if_pos hb] at hnew
      simp at hnew
    · rw [if_neg hb] at hnew
      simp at hnew
      subst hnew
      refine ⟨rfl, ?_⟩
      intro q hq
      simp at hq
      subst hq
      exact hin

/-- A successful detection-loop body either leaves the candidate list
unchanged or runs the matching step on the detection's own instance. -/
theorem processDetection_cases (opts : RepeatDetectionOptions) (dirName filename : String)
    (cands : List DetectionLocation) (i : Nat) (det : Detection)
    (out : List DetectionLocation)
    (h : processDetection opts dirName filename cands i det = .ok out) :
    out = cands ∨
    out = matchDetection opts dirName det
      ⟨i, filename, det.bbox, det.conf, det.category⟩ cands := by
  by_cases hc01 : 0 ≤ det.conf ∧ det.conf ≤ 1
  case neg =>
    simp [processDetection, hc01] at h
  by_cases hmin : det.conf < opts.confidenceMin
  · left
    symm
    simpa [processDetection, hc01.1, hc01.2, hmin] using h
  by_cases hmax : det.conf > opts.confidenceMax
  · left
    symm
    simpa [processDetection, hc01.1, hc01.2, hmin, hmax] using h
  have hcl : clusterDetection opts dirName filename cands i det = .ok out →
      out = cands ∨ out = matchDetection opts dirName det
        ⟨i, filename, det.bbox, det.conf, det.category⟩ cands := by
    intro hcd
    by_cases hblen : det.bbox.length < 4
    · simp [clusterDetection, hblen] at hcd
    by_cases ha01 : 0 ≤ det.bbox.getD 3 0 * det.bbox.getD 2 0 ∧
        det.bbox.getD 3 0 * det.bbox.getD 2 0 ≤ 1
    case neg =>
      have ha01' : ¬ ((0:ℚ) ≤ det.bbox[3]?.getD (0:ℚ) * det.bbox[2]?.getD (0:ℚ) ∧
          det.bbox[3]?.getD (0:ℚ) * det.bbox[2]?.getD (0:ℚ) ≤ (1:ℚ)) := by
        simpa using ha01
      simp [clusterDetection, hblen, ha01'] at hcd
    have ha0' : (0:ℚ) ≤ det.bbox[3]?.getD (0:ℚ) * det.bbox[2]?.getD (0:ℚ) := by
      simpa using ha01.1
    have ha1' : det.bbox[3]?.getD (0:ℚ) * det.bbox[2]?.getD (0:ℚ) ≤ (1:ℚ) := by
      simpa using ha01.2
    by_cases hgt : opts.maxSuspiciousDetectionSize <
        det.bbox[3]?.getD (0:ℚ) * det.bbox[2]?.getD (0:ℚ)
    · left
      symm
      simpa [clusterDetection, hblen, ha0', ha1', hgt] using hcd
    · right
      symm
      simpa [clusterDetection, hblen, ha0', ha1', hgt] using hcd
  by_cases hemp : opts.excludeClasses.isEmpty
  · refine hcl ?_
    simpa [processDetection, hc01.1, hc01.2, hmin, hmax, hemp] using h
  · cases hint : det.category.toInt? with
    | none =>
      simp [processDetection, hc01.1, hc01.2, hmin, hmax, hemp, hint] at h
    | some iClass =>
      by_cases hmem : iClass ∈ opts.excludeClasses
      · left
        symm
        simpa [processDetection, hc01.1, hc01.2, hmin, hmax, hemp, hint, hmem] using h
      · refine hcl ?_
        simpa [processDetection, hc01.1, hc01.2, hmin, hmax, hemp, hint, hmem] using h

/-- The row loop preserves the provenance invariant when the row's file is
among the directory's files. -/
theorem processRow_candOK (opts : RepeatDetectionOptions) (isImg : String → Bool)
    (dirName : String) (files : List String) (row : DetectionRow)
    (cands out : List DetectionLocation)
    (h : processRow opts isImg dirName cands row = .ok out)
    (hf : row.file ∈ files)
    (hall : ∀ c ∈ cands, CandOK dirName files c) :
    ∀ c ∈ out, CandOK dirName files c := by
  by_cases himg : isImg row.file
  case neg =>
    have : out = cands := by
      symm
      simpa [processRow, himg] using h
    rw [this]
    exact hall
  by_cases hmax : row.max_detection_conf < opts.confidenceMin
  · have : out = cands := by
      symm
      simpa [processRow, himg, hmax] using h
    rw [this]
    exact hall
  by_cases hlen : row.detections.length = 0
  · simp [processRow, himg, hmax, hlen] at h
  have h' : foldE (fun acc p => processDetection opts dirName row.file acc p.1 p.2)
      cands (enumFromNat 0 row.detections) = .ok out := by
    simpa [processRow, himg, hmax, hlen] using h
  have key := foldE_rel
    (fun s s' : List DetectionLocation =>
      (∀ c ∈ s, CandOK dirName files c) → ∀ c ∈ s', CandOK dirName files c)
    (fun _ hs => hs) (fun _ _ _ h1 h2 hs => h2 (h1 hs))
    (fun acc p => processDetection opts dirName row.file acc p.1 p.2)
    (enumFromNat 0 row.detections) ?step cands out h'
  · exact key hall
  · intro s p s' _ hp hs
    rcases processDetection_cases opts dirName row.file s p.1 p.2 s' hp with rfl' | hm
    · rw [rfl']
      exact hs
    · rw [hm]
      exact matchDetection_candOK opts dirName p.2
        ⟨p.1, row.file, p.2.bbox, p.2.conf, p.2.category⟩ s files hf hs

/-- Every candidate a directory search produces belongs to that directory and
draws all its instances from the directory's files. -/
theorem find_matches_candOK (opts : RepeatDetectionOptions) (isImg : String → Bool)
    (rbd : List (String × List DetectionRow)) (dirName : String)
    (out : List DetectionLocation)
    (h : find_matches_in_directory opts isImg rbd dirName = .ok out) :
    ∀ c ∈ out,
      CandOK dirName (((assocLookup rbd dirName).getD []).map (fun r => r.file)) c := by
  have key := foldE_rel
    (fun s s' : List DetectionLocation =>
      (∀ c ∈ s,
        CandOK dirName (((assocLookup rbd dirName).getD []).map (fun r : DetectionRow => r.file)) c) →
      ∀ c ∈ s',
        CandOK dirName (((assocLookup rbd dirName).getD []).map (fun r : DetectionRow => r.file)) c)
    (fun _ hs => hs) (fun _ _ _ h1 h2 hs => h2 (h1 hs))
    (processRow opts isImg dirName) ((assocLookup rbd dirName).getD []) ?step [] out h
  · exact key (by simp)
  · intro s row s' hrow hp hs
    exact processRow_candOK opts isImg dirName _ row s s' hp
      (List.mem_map.mpr ⟨row, hrow, rfl⟩) hs

/-- The classifier keeps only candidates that were already present. -/
theorem classifySuspicious_subset (thr : Int) (cands : List DetectionLocation)
    (c : DetectionLocation) (h : c ∈ classifySuspicious thr cands) : c ∈ cands := by
  rw [classifySuspicious_eq_filter] at h
  exact (List.mem_filter.mp h).1

/-- Unfolding the flattened pass-1 iteration space. -/
theorem mem_candidateInstancePairs (susp : List (List DetectionLocation))
    (q : List ℚ × IndexedDetection) :
    q ∈ candidateInstancePairs susp ↔
      ∃ dirEvents ∈ susp, ∃ ev ∈ dirEvents, ∃ inst ∈ ev.instances, q = (ev.bbox, inst) := by
  simp only [candidateInstancePairs, List.mem_flatten, List.mem_map]
  constructor
  · rintro ⟨l1, ⟨dirEvents, hde, rfl⟩, hq1⟩
    obtain ⟨l2, hl2, hq2⟩ := List.mem_flatten.mp hq1
    obtain ⟨ev, hev, rfl⟩ := List.mem_map.mp hl2
    obtain ⟨inst, hinst, hq⟩ := List.mem_map.mp hq2
    exact ⟨dirEvents, hde, ev, hev, inst, hinst, hq.symm⟩
  · rintro ⟨dirEvents, hde, ev, hev, inst, hinst, rfl⟩
    refine ⟨_, ⟨dirEvents, hde, rfl⟩, ?_⟩
    refine List.mem_flatten.mpr ⟨_, List.mem_map.mpr ⟨ev, hev, rfl⟩, ?_⟩
    exact List.mem_map.mpr ⟨inst, hinst, rfl⟩

/-- Membership version of the `mapE` characterization. -/
theorem mapE_mem {α β : Type} (f : α → Except String β) (l : List α) (bs : List β)
    (h : mapE f l = .ok bs) (b : β) (hb : b ∈ bs) : ∃ a ∈ l, f a = .ok b := by
  obtain ⟨j, hj⟩ := List.mem_iff_getElem?.mp hb
  obtain ⟨-, hpt⟩ := mapE_ok_get f l bs h
  obtain ⟨a, ha, hfa⟩ := hpt j b hj
  exact ⟨a, List.getElem?_mem ha, hfa⟩

/-- A pass-1 step leaves rows it does not resolve to untouched. -/
theorem processInstance_untouched (opts : RepeatDetectionOptions)
    (f2r : List (String × Nat)) (st st' : List DetectionRow × Nat)
    (p : List ℚ × IndexedDetection) (i : Nat)
    (h : processInstance opts f2r st p = .ok st')
    (hno : assocLookup f2r p.2.filename ≠ some i) :
    st'.1[i]? = st.1[i]? := by
  obtain ⟨locBbox, inst⟩ := p
  by_cases hiou : get_iou inst.bbox locBbox < opts.iouThreshold
  · simp [processInstance, hiou] at h
  cases hlk : assocLookup f2r inst.filename with
  | none => simp [processInstance, hiou, hlk] at h
  | some iRow =>
  cases hrw : st.1[iRow]? with
  | none => simp [processInstance, hiou, hlk, hrw] at h
  | some row =>
  cases hdd : row.detections[inst.iDetection]? with
  | none => simp [processInstance, hiou, hlk, hrw, hdd] at h
  | some d =>
  by_cases htk : inst.bbox.take 3 ≠ d.bbox.take 3
  · simp [processInstance, hiou, hlk, hrw, hdd, htk] at h
  have heq : inst.bbox.take 3 = d.bbox.take 3 := not_ne_iff.mp htk
  have hine : i ≠ iRow := by
    intro he
    rw [he] at hno
    exact hno hlk
  by_cases hcf : 0 ≤ d.conf
  · have hst : st' = (listModify st.1 iRow
        (fun r => { r with detections := listModify r.detections inst.iDetection (fun dd => { dd with conf := -1 * dd.conf }) }),
        st.2 + 1) := by
      symm
      simpa [processInstance, hiou, hlk, hrw, hdd, heq, hcf] using h
    rw [hst]
    exact listModify_get_other st.1 iRow i _ hine
  · have hst : st' = st := by
      symm
      simpa [processInstance, hiou, hlk, hrw, hdd, heq, hcf] using h
    rw [hst]

/-- Pass 1 leaves every row untouched that no instance of any suspicious
candidate resolves to. -/
theorem pass1_untouched (opts : RepeatDetectionOptions) (f2r : List (String × Nat))
    (susp : List (List DetectionLocation)) (table t1 : List DetectionRow) (n : Nat)
    (h : suppressionPass1 opts f2r susp table = .ok (t1, n)) (i : Nat)
    (hno : ∀ q ∈ candidateInstancePairs susp, assocLookup f2r q.2.filename ≠ some i) :
    t1[i]? = table[i]? := by
  have h' : foldE (processInstance opts f2r) (table, 0) (candidateInstancePairs susp) =
      .ok (t1, n) := h
  exact foldE_rel (fun s s' : List DetectionRow × Nat => s'.1[i]? = s.1[i]?)
    (fun _ => rfl) (fun _ _ _ h1 h2 => h2.trans h1)
    (processInstance opts f2r) (candidateInstancePairs susp)
    (fun s q s' hq hp => processInstance_untouched opts f2r s s' q i hp (hno q hq))
    (table, 0) (t1, n) h'

/-- A successful `pass2Row` never changes the row's detections. -/
theorem pass2Row_detections (opts : RepeatDetectionOptions) (row r' : DetectionRow)
    (fl : Bool × Bool × Bool) (h : pass2Row opts row = .ok (r', fl)) :
    r'.detections = row.detections := by
  by_cases hne : row.detections = []
  · have hlen : row.detections.length = 0 := by simp [hne]
    have : r' = row := by
      have hh := h
      simp [pass2Row, hlen] at hh
      exact hh.1.symm
    rw [this]
  · obtain ⟨m, nneg, -, hdets, -⟩ :=
      pass2Row_ok_props opts row r' fl h hne
    exact hdets

/-- Destructuring a successful pipeline run into its stages. -/
theorem find_repeat_ok_parts (opts : RepeatDetectionOptions) (isImg : String → Bool)
    (rows : List DetectionRow) (res : RepeatDetectionResults)
    (h : find_repeat_detections opts isImg rows = .ok res) :
    separateByDirectory opts.nDirLevelsFromLeaf rows =
      .ok (res.rowsByDirectory, res.filenameToRow) ∧
    res.dirsToSearch = pySliceTo (res.rowsByDirectory.map Prod.fst) opts.debugMaxDir ∧
    ∃ allCands,
      mapE (find_matches_in_directory opts isImg res.rowsByDirectory) res.dirsToSearch =
        .ok allCands ∧
      res.suspiciousDetections = allCands.map (classifySuspicious opts.occurrenceThreshold) ∧
      ∃ t1 n cnt,
        suppressionPass1 opts res.filenameToRow res.suspiciousDetections rows = .ok (t1, n) ∧
        suppressionPass2 opts t1 = .ok (res.detectionResultsUpdated, cnt) ∧
        res.nBboxChanges = n := by
  cases hsep : separateByDirectory opts.nDirLevelsFromLeaf rows with
  | error e => simp [find_repeat_detections, hsep] at h
  | ok pr =>
    obtain ⟨rbd, f2r⟩ := pr
    cases hmap : mapE (find_matches_in_directory opts isImg rbd)
        (pySliceTo (rbd.map Prod.fst) opts.debugMaxDir) with
    | error e => simp [find_repeat_detections, hsep, hmap] at h
    | ok allCands =>
      cases hupd : update_detection_table opts f2r
          (allCands.map (classifySuspicious opts.occurrenceThreshold)) rows with
      | error e => simp [find_repeat_detections, hsep, hmap, hupd] at h
      | ok triple =>
        obtain ⟨updated, n, cnt⟩ := triple
        have hres : res = ⟨rbd, f2r, pySliceTo (rbd.map Prod.fst) opts.debugMaxDir,
            allCands.map (classifySuspicious opts.occurrenceThreshold), updated, n⟩ := by
          symm
          simpa [find_repeat_detections, hsep, hmap, hupd] using h
        subst hres
        cases hp1 : suppressionPass1 opts f2r
            (allCands.map (classifySuspicious opts.occurrenceThreshold)) rows with
        | error e => simp [update_detection_table, hp1] at hupd
        | ok pr1 =>
          obtain ⟨t1, n1⟩ := pr1
          cases hp2 : suppressionPass2 opts t1 with
          | error e => simp [update_detection_table, hp1, hp2] at hupd
          | ok pr2 =>
            obtain ⟨t2, cnt2⟩ := pr2
            have hupd' : t2 = updated ∧ n1 = n ∧ cnt2 = cnt := by
              simpa [update_detection_table, hp1, hp2] using hupd
            refine ⟨rfl, rfl, allCands, hmap, rfl, t1, n1, cnt2, rfl, ?_, hupd'.2.1.symm⟩
            rw [hp2, hupd'.1]

/-- C2: with `debugMaxDir` at its default of -1, the slice
`list(rowsByDirectory.keys())[0:-1]` drops the last directory group from
`dirsToSearch`: for every input table that last directory is never searched
(no candidate of any searched directory belongs to it), none of its
detections is ever classified as suspicious, and its rows' detections (in
particular their confidences) come out of the table update unchanged. -/
theorem claim_C2_debugMaxDir_drops_last_directory
    (opts : RepeatDetectionOptions) (isImg : String → Bool) (rows : List DetectionRow)
    (res : RepeatDetectionResults)
    (hdm : opts.debugMaxDir = -1)
    (h : find_repeat_detections opts isImg rows = .ok res)
    (hne : rows ≠ []) :
    ∃ lastKey, (res.rowsByDirectory.map Prod.fst).getLast? = some lastKey ∧
      lastKey ∉ res.dirsToSearch ∧
      (∀ dirEvents ∈ res.suspiciousDetections, ∀ c ∈ dirEvents,
        c.relativeDir ∈ res.dirsToSearch ∧ c.relativeDir ≠ lastKey) ∧
      (∀ (i : Nat) (row : DetectionRow), rows[i]? = some row →
        directoryKey opts.nDirLevelsFromLeaf row.file = lastKey →
        (res.detectionResultsUpdated[i]?).map (fun r => r.detections) =
          some row.detections) := by
  obtain ⟨hsep, hdirs, allCands, hmap, hsusp, t1, n, cnt, hp1, hp2, -⟩ :=
    find_repeat_ok_parts opts isImg rows res h
  have hnodup : (res.rowsByDirectory.map Prod.fst).Nodup :=
    separateAux_keys_nodup opts.nDirLevelsFromLeaf rows 0 [] [] _ _ hsep (by simp)
  obtain ⟨r0, rest0, hr0⟩ : ∃ r0 rest0, rows = r0 :: rest0 := by
    cases rows with
    | nil => exact absurd rfl hne
    | cons a b => exact ⟨a, b, rfl⟩
  have hkeysne : res.rowsByDirectory.map Prod.fst ≠ [] := by
    have hg0 := separateAux_groups opts.nDirLevelsFromLeaf rows 0 [] []
      _ _ (directoryKey opts.nDirLevelsFromLeaf r0.file) hsep
    have hflt : r0 ∈ rows.filter (fun r =>
        directoryKey opts.nDirLevelsFromLeaf r.file ==
          directoryKey opts.nDirLevelsFromLeaf r0.file) := by
      refine List.mem_filter.mpr ⟨by rw [hr0]; exact List.mem_cons_self r0 rest0, by simp⟩
    have hfne : rows.filter (fun r =>
        directoryKey opts.nDirLevelsFromLeaf r.file ==
          directoryKey opts.nDirLevelsFromLeaf r0.file) ≠ [] := List.ne_nil_of_mem hflt
    rw [if_neg (by simp [assocLookup, hfne])] at hg0
    have : (assocLookup res.rowsByDirectory
        (directoryKey opts.nDirLevelsFromLeaf r0.file)).isSome := by
      rw [hg0]
      rfl
    rw [assocLookup_isSome_iff] at this
    exact List.ne_nil_of_mem this
  refine ⟨(res.rowsByDirectory.map Prod.fst).getLast hkeysne,
    (List.getLast?_eq_getLast _ hkeysne), ?_, ?_, ?_⟩
  case _ =>
    rw [hdirs, hdm, pySliceTo_neg_one]
    exact getLast_not_mem_dropLast _ hnodup hkeysne
  case _ =>
    have hnotin : (res.rowsByDirectory.map Prod.fst).getLast hkeysne ∉ res.dirsToSearch := by
      rw [hdirs, hdm, pySliceTo_neg_one]
      exact getLast_not_mem_dropLast _ hnodup hkeysne
    intro dirEvents hde c hc
    rw [hsusp] at hde
    obtain ⟨cands, hcands, rfl⟩ := List.mem_map.mp hde
    obtain ⟨d, hdmem, hfind⟩ := mapE_mem _ _ _ hmap cands hcands
    have hok := find_matches_candOK opts isImg res.rowsByDirectory d cands hfind c
      (classifySuspicious_subset _ _ _ hc)
    rw [hok.1]
    exact ⟨hdmem, fun heq => hnotin (heq ▸ hdmem)⟩
  case _ =>
    have hnotin : (res.rowsByDirectory.map Prod.fst).getLast hkeysne ∉ res.dirsToSearch := by
      rw [hdirs, hdm, pySliceTo_neg_one]
      exact getLast_not_mem_dropLast _ hnodup hkeysne
    intro i row hrow hkey
    have hf2r := separateAux_f2r opts.nDirLevelsFromLeaf rows 0 [] [] _ _ hsep
    simp only [List.nil_append] at hf2r
    have hno : ∀ q ∈ candidateInstancePairs res.suspiciousDetections,
        assocLookup res.filenameToRow q.2.filename ≠ some i := by
      rintro q hq hlkq
      obtain ⟨dirEvents, hde, ev, hev, inst, hinst, rfl⟩ :=
        (mem_candidateInstancePairs _ _).mp hq
      rw [hsusp] at hde
      obtain ⟨cands, hcands, rfl⟩ := List.mem_map.mp hde
      obtain ⟨d, hdmem, hfind⟩ := mapE_mem _ _ _ hmap cands hcands
      have hok := find_matches_candOK opts isImg res.rowsByDirectory d cands hfind ev
        (classifySuspicious_subset _ _ _ hev)
      have hfmem := hok.2 inst hinst
      obtain ⟨rg, hrg, hrgf⟩ := List.mem_map.mp hfmem
      have hdkeys : d ∈ res.rowsByDirectory.map Prod.fst := by
        rw [hdirs, hdm, pySliceTo_neg_one] at hdmem
        exact List.dropLast_subset _ hdmem
      have hsome : (assocLookup res.rowsByDirectory d).isSome :=
        (assocLookup_isSome_iff _ _).mpr hdkeys
      obtain ⟨g, hg⟩ := Option.isSome_iff_exists.mp hsome
      have hgchar := separateAux_groups opts.nDirLevelsFromLeaf rows 0 [] [] _ _ d hsep
      rw [hg] at hgchar
      by_cases hfe : rows.filter (fun r =>
          directoryKey opts.nDirLevelsFromLeaf r.file == d) = []
      · rw [if_pos (by simp [assocLookup, hfe])] at hgchar
        cases hgchar
      · rw [if_neg (by simp [assocLookup, hfe])] at hgchar
        simp only [assocLookup, Option.getD_none, List.nil_append,
          Option.some.injEq] at hgchar
        rw [hg] at hrg
        simp only [Option.getD_some] at hrg
        rw [hgchar] at hrg
        have hrgd : directoryKey opts.nDirLevelsFromLeaf rg.file = d := by
          have := (List.mem_filter.mp hrg).2
          simpa using this
        rw [hf2r] at hlkq
        obtain ⟨m, r', hget', hfile', hj⟩ :=
          enumMap_lookup_sound rows 0 inst.filename i hlkq
        have hmi : m = i := by omega
        subst hmi
        rw [hrow] at hget'
        have hr'row : r' = row := (Option.some.inj hget').symm
        have hrowfile : row.file = inst.filename := by
          rw [← hr'row, hfile']
        have hd_last : directoryKey opts.nDirLevelsFromLeaf row.file = d := by
          rw [hrowfile, ← hrgf]
          exact hrgd
        rw [hkey] at hd_last
        exact hnotin (hd_last ▸ hdmem)
    have ht1 : t1[i]? = rows[i]? := pass1_untouched opts res.filenameToRow
      res.suspiciousDetections rows t1 n hp1 i hno
    rw [hrow] at ht1
    have h2' : foldE (pass2Step opts) ([], ⟨0, 0, 0⟩) t1 =
        .ok (res.detectionResultsUpdated, cnt) := hp2
    obtain ⟨processed, hout, hplen, hpt⟩ := pass2_fold_ok opts t1 [] ⟨0, 0, 0⟩ _ _ h2'
    obtain ⟨r', fl, hpr, hpi⟩ := hpt i row ht1
    have hdets := pass2Row_detections opts row r' fl hpr
    rw [hout]
    simp only [List.nil_append]
    rw [hpi]
    simp [hdets]

/-- Witness for C2 on the example-scenario table: its only directory `A` is
the last one, it is dropped from the search list, and its rows' detections
are unchanged by the whole run. -/
theorem claim_C2_debugMaxDir_drops_last_directory_witness :
    ∃ lastKey : String,
      (([("A", c1Table)] : List (String × List DetectionRow)).map Prod.fst).getLast? =
        some lastKey ∧
      lastKey ∉ ([] : List String) ∧
      (c1Table[0]?).map (fun r => r.detections) = some (c1Row "A/i00.jpg").detections := by
  obtain ⟨lastKey, h1, h2, h3, h4⟩ :=
    claim_C2_debugMaxDir_drops_last_directory c1Opts (fun _ => true) c1Table
      ⟨[("A", c1Table)], c1F2r, [], [], c1Table, 0⟩ (by simp [c1Opts]) c1_scenario_default
      (by simp [c1Table, c1Files])
  refine ⟨lastKey, h1, h2, ?_⟩
  have hlk : lastKey = "A" := by
    have hx := h1
    simp at hx
    exact hx.symm
  exact h4 0 (c1Row "A/i00.jpg") (by simp [c1Table, c1Files])
    (by rw [hlk]; decide)
